import Mathlib

set_option maxRecDepth 100000

/-!
A shallow embedding of the `tsc_clock` repository.

The C++ class `TscClock` (`tsc_clock.h`, `tsc_clock.cpp`) converts readings of the
x86 time-stamp counter to epoch nanoseconds through a fixed-point multiplier.

Conventions of the embedding:

* `uint64_t` values are natural numbers; every operation that can leave the 64-bit
  range is followed by an explicit `% 2^64`, and `unsigned __int128` operations by
  `% 2^128`.
* `double mhz_` is a finite non-negative binary64 value, kept as a dyadic rational
  `man / 2^scale` (`Dbl`); the one floating-point product the code takes of it is
  rounded to 53 significant bits, ties to even (`roundToDouble`).
* The hardware is an input: each loop of the code that reads the counter or the wall
  clock receives the readings of its iterations as a function of the loop index.
* Undefined behaviour (integer division by zero, a floating-point value converted to
  an integer type that cannot hold it) is `none`.
-/

namespace TscClock

/-! ## Data model -/

/-- The struct `TscClock::SyncPoint`: a matched wall-clock reading (ns) and counter reading. -/
structure SyncPoint where
  ns_ : Nat := 0
  cycles_ : Nat := 0
deriving DecidableEq, Repr

/-- A finite non-negative `double`, the dyadic rational `man / 2^scale`. -/
structure Dbl where
  man : Nat := 0
  scale : Nat := 0
deriving DecidableEq, Repr

/-- The private data members of `class TscClock`, with their default values. -/
structure State where
  scaled_ns_per_cycle_ : Nat := 0
  start_ns_ : Nat := 0
  p_start_ : SyncPoint := {}
  mhz_ : Dbl := {}
  rdtsc_latency_ : Nat := 0
  clock_gettime_latency_ : Nat := 0
deriving DecidableEq, Repr

/-- Two consecutive `readTsc()` results, `t1` then `t2`. -/
structure TscPair where
  t1 : Nat
  t2 : Nat
deriving DecidableEq, Repr

/-- One bracketed wall-clock read: `t1 = readTsc()`, `clock_gettime` filling
`ts = (tv_sec, tv_nsec)`, `t2 = readTsc()`. -/
structure Trial where
  t1 : Nat
  tv_sec : Nat
  tv_nsec : Nat
  t2 : Nat
deriving DecidableEq, Repr

/-! ## Machine arithmetic -/

/-- Unsigned 64-bit subtraction `a - b`. -/
def sub64 (a b : Nat) : Nat := (a + 2 ^ 64 - b) % 2 ^ 64

/-- Unsigned 64-bit addition `a + b`. -/
def add64 (a b : Nat) : Nat := (a + b) % 2 ^ 64

/-- Number of binary digits of `x`, by halving (`fuel` bounds the number of steps). -/
def bitLenAux : Nat → Nat → Nat
  | 0, _ => 0
  | fuel + 1, x => if x = 0 then 0 else bitLenAux fuel (x / 2) + 1

/-- Number of binary digits of `x`. -/
def bitLen (x : Nat) : Nat := bitLenAux x x

/-- The binary64 value nearest to the integer `x`: `x` kept to 53 significant bits,
round-to-nearest, ties to even (the default IEEE-754 rounding of a conversion or of a
product whose exact value is `x`). -/
def roundToDouble (x : Nat) : Nat :=
  if x < 2 ^ 53 then x
  else
    let e := bitLen x - 53
    let q := x / 2 ^ e
    let r := x % 2 ^ e
    if 2 ^ e < 2 * r ∨ (2 * r = 2 ^ e ∧ q % 2 = 1) then (q + 1) * 2 ^ e else q * 2 ^ e

/-- The conversion `uint128_t(mhz_ * 1000)`: the double product, rounded, then truncated toward zero.
`none` when the value does not fit 128 bits (the conversion is undefined). -/
def khzOf (d : Dbl) : Option Nat :=
  let k := roundToDouble (d.man * 1000) / 2 ^ d.scale
  if k < 2 ^ 128 then some k else none

/-- The quotient `(uint128_t(1000000) << 64) / uint128_t(mhz_ * 1000)` assigned to the
`uint64_t scaled_ns_per_cycle_` (tsc_clock.cpp line 44); `none` on division by zero. -/
def knownQuot (d : Dbl) : Option Nat :=
  match khzOf d with
  | none => none
  | some k => if k = 0 then none else some ((1000000 * 2 ^ 64) % 2 ^ 128 / k % 2 ^ 64)

/-- The quotient `(uint128_t(ns) << 64) / uint128_t(cycles)` assigned to the
`uint64_t scaled_ns_per_cycle_` (tsc_clock.cpp lines 53 and 72); `none` on division
by zero. -/
def scaledQuot (ns cycles : Nat) : Option Nat :=
  if cycles = 0 then none else some ((ns * 2 ^ 64) % 2 ^ 128 / cycles % 2 ^ 64)

/-! ## Conversion functions (tsc_clock.h) -/

/-- The method `TscClock::cyclesToNs`: `(uint128_t(cycles) * uint128_t(scaled_ns_per_cycle_)) >> 64`
returned as `uint64_t`. -/
def cyclesToNs (c : State) (cycles : Nat) : Nat :=
  (cycles * c.scaled_ns_per_cycle_) % 2 ^ 128 / 2 ^ 64 % 2 ^ 64

/-- The method `TscClock::cyclesToEpochNs`: `start_ns_ + cyclesToNs(cycles)` in `uint64_t`. -/
def cyclesToEpochNs (c : State) (cycles : Nat) : Nat :=
  add64 c.start_ns_ (cyclesToNs c cycles)

/-- The struct `timespec` of the C library: `time_t tv_sec` and `long tv_nsec`, both
signed 64-bit integers. -/
structure Timespec where
  tv_sec : Int
  tv_nsec : Int
deriving DecidableEq, Repr

/-- Conversion of a `uint64_t` value to a signed 64-bit integer (two's complement). -/
def toInt64 (x : Nat) : Int :=
  if x % 2 ^ 64 < 2 ^ 63 then ((x % 2 ^ 64 : Nat) : Int)
  else ((x % 2 ^ 64 : Nat) : Int) - 2 ^ 64

/-- The method `TscClock::cyclesToTimeSpec`: `ns / 1000000000` and `ns % 1000000000`
in `uint64_t`, assigned to the signed fields of a `timespec`. -/
def cyclesToTimeSpec (c : State) (cycles : Nat) : Timespec :=
  let ns := cyclesToEpochNs c cycles
  { tv_sec := toInt64 (ns / 1000000000), tv_nsec := toInt64 (ns % 1000000000) }

/-! ## Maintenance functions (tsc_clock.cpp) -/

/-- The method `TscClock::setMHz`. -/
def setMHz (c : State) (mhz : Dbl) : State := { c with mhz_ := mhz }

/-- One of the two measuring loops of `measureCallLatencies`: starting from
`numeric_limits<uint64_t>::max()`, 100 iterations of `lat = min(lat, t2 - t1)`. -/
def minDelta (reads : Nat → TscPair) : Nat :=
  (List.range 100).foldl (fun lat i => min lat (sub64 (reads i).t2 (reads i).t1)) (2 ^ 64 - 1)

/-- The method `TscClock::measureCallLatencies`: `pairs i` are the two counter reads of iteration
`i` of the first loop, `brackets i` the two counter reads around `clock_gettime` in
iteration `i` of the second. -/
def measureCallLatencies (c : State) (pairs brackets : Nat → TscPair) : State :=
  let rdtsc := minDelta pairs
  { c with rdtsc_latency_ := rdtsc, clock_gettime_latency_ := sub64 (minDelta brackets) rdtsc }

/-- The local `uint64_t good_latency = clock_gettime_latency_ * 1.5`: the latency converted to
double, the product rounded, the result truncated to an integer. `none` when the
truncated value does not fit 64 bits (the conversion is undefined). -/
def goodLatency (c : State) : Option Nat :=
  let v := roundToDouble (3 * roundToDouble c.clock_gettime_latency_) / 2
  if v < 2 ^ 64 then some v else none

/-- The loop of `getSyncTimePoint`: `k` iterations remain, `i` is the loop index,
`min_cycles` and `ret` the local variables. -/
def syncLoop (c : State) (good_latency : Nat) (trials : Nat → Trial) :
    Nat → Nat → Nat → SyncPoint → SyncPoint
  | 0, _, _, ret => ret
  | k + 1, i, min_cycles, ret =>
    let dt := sub64 (trials i).t2 (trials i).t1
    if min_cycles ≤ dt then syncLoop c good_latency trials k (i + 1) min_cycles ret
    else
      let ret1 : SyncPoint :=
        { ns_ := ((trials i).tv_sec * 1000000000 + (trials i).tv_nsec) % 2 ^ 64,
          cycles_ := add64 (trials i).t1 c.rdtsc_latency_ }
      if dt ≤ good_latency then ret1
      else syncLoop c good_latency trials k (i + 1) dt ret1

/-- The number of iterations the loop of `getSyncTimePoint` executes: the control flow
of `syncLoop` (`continue`, `break`, end of the `for`), counting the trials it reads. -/
def syncIters (good_latency : Nat) (trials : Nat → Trial) : Nat → Nat → Nat → Nat
  | 0, _, _ => 0
  | k + 1, i, min_cycles =>
    let dt := sub64 (trials i).t2 (trials i).t1
    if min_cycles ≤ dt then syncIters good_latency trials k (i + 1) min_cycles + 1
    else if dt ≤ good_latency then 1
    else syncIters good_latency trials k (i + 1) dt + 1

/-- The method `TscClock::getSyncTimePoint`; `trials i` is what iteration `i` reads.
`none` when the conversion that initialises `good_latency` is undefined. -/
def getSyncTimePoint (c : State) (trials : Nat → Trial) : Option SyncPoint :=
  match goodLatency c with
  | none => none
  | some good_latency => some (syncLoop c good_latency trials 10 0 (2 ^ 64 - 1) {})

/-- The body of `TscClock::init` from line 40 on, given the sync point `p0` that line 40
captures and the sync point `p1` that line 49 captures when it is reached. -/
def initFrom (c : State) (p0 p1 : SyncPoint) : Option State :=
  let c1 : State := { c with p_start_ := p0 }
  let q : Option Nat :=
    if c1.mhz_.man ≠ 0 then knownQuot c1.mhz_
    else scaledQuot (sub64 p1.ns_ c1.p_start_.ns_) (sub64 p1.cycles_ c1.p_start_.cycles_)
  match q with
  | none => none
  | some r =>
    let c2 : State := { c1 with scaled_ns_per_cycle_ := r }
    some { c2 with start_ns_ := sub64 c2.p_start_.ns_ (cyclesToNs c2 c2.p_start_.cycles_) }

/-- The method `TscClock::init`: `pairs`, `brackets` feed `measureCallLatencies`, `tr0` the first
`getSyncTimePoint`, `tr1` the second (after `usleep`), which only the two-sample path
calls; on the known-frequency path `initFrom` does not read its last argument. -/
def init (c : State) (pairs brackets : Nat → TscPair) (tr0 tr1 : Nat → Trial) :
    Option State :=
  let c1 := measureCallLatencies c pairs brackets
  match getSyncTimePoint c1 tr0 with
  | none => none
  | some p0 =>
    if c1.mhz_.man ≠ 0 then initFrom c1 p0 p0
    else
      match getSyncTimePoint c1 tr1 with
      | none => none
      | some p1 => initFrom c1 p0 p1

/-- The local `ns_diff` of `TscClock::recalibrate` (line 63):
`std::abs(int64_t(expected_ns - p_end.ns_))` as `uint64_t`. -/
def nsDiff (c : State) (p_end : SyncPoint) : Nat :=
  let d := sub64 (cyclesToEpochNs c p_end.cycles_) p_end.ns_
  if d < 2 ^ 63 then d else 2 ^ 64 - d

/-- The body of `TscClock::recalibrate` from line 62 on, given the sync point `p_end`
that line 60 captures. -/
def recalibrateAt (c : State) (p_end : SyncPoint) : Option State :=
  let q : Option Nat :=
    if c.mhz_.man = 0 ∧ nsDiff c p_end < 50000000 then
      scaledQuot (sub64 p_end.ns_ c.p_start_.ns_) (sub64 p_end.cycles_ c.p_start_.cycles_)
    else some c.scaled_ns_per_cycle_
  match q with
  | none => none
  | some r =>
    let c2 : State := { c with scaled_ns_per_cycle_ := r }
    some { c2 with start_ns_ := sub64 p_end.ns_ (cyclesToNs c2 p_end.cycles_) }

/-- The method `TscClock::recalibrate`; `trials` feeds its `getSyncTimePoint`. -/
def recalibrate (c : State) (trials : Nat → Trial) : Option State :=
  match getSyncTimePoint c trials with
  | none => none
  | some p_end => recalibrateAt c p_end

section

attribute [local irreducible] init

/-- The states of a clock after `init` and any number of `recalibrate` calls. -/
inductive Calibrated : State → Prop
  | init (c : State) (pairs brackets : Nat → TscPair) (tr0 tr1 : Nat → Trial) (s : State) :
      TscClock.init c pairs brackets tr0 tr1 = some s → Calibrated s
  | recal (c : State) (trials : Nat → Trial) (s : State) :
      Calibrated c → recalibrate c trials = some s → Calibrated s

end

/-! ## Auxiliary definitions for the statements and proofs -/

/-- The multiplier `init` stores at lines 44 / 53, as a function of the state before
the call and the two sync points. -/
def initQuot (c : State) (p0 p1 : SyncPoint) : Option Nat :=
  if c.mhz_.man ≠ 0 then knownQuot c.mhz_
  else scaledQuot (sub64 p1.ns_ p0.ns_) (sub64 p1.cycles_ p0.cycles_)

/-- The state after the last assignment of `init` / `recalibrate` (lines 55 and 74):
multiplier `r` in place, `start_ns_` recomputed at sync point `p`. -/
def anchored (c : State) (r : Nat) (p : SyncPoint) : State :=
  { c with
    scaled_ns_per_cycle_ := r,
    start_ns_ := sub64 p.ns_ (p.cycles_ * r % 2 ^ 128 / 2 ^ 64 % 2 ^ 64) }

/-- The bracket width `t2 - t1` of trial `i`, as the loop of `getSyncTimePoint`
computes it. -/
def width (trials : Nat → Trial) (i : Nat) : Nat := sub64 (trials i).t2 (trials i).t1

/-- The sync point `getSyncTimePoint` records for a trial (lines 94 and 95): the
wall-clock reading in nanoseconds and `t1 + rdtsc_latency_`. -/
def syncOf (c : State) (t : Trial) : SyncPoint :=
  { ns_ := (t.tv_sec * 1000000000 + t.tv_nsec) % 2 ^ 64,
    cycles_ := add64 t.t1 c.rdtsc_latency_ }

/-- The number of trials a call of `getSyncTimePoint` executes; `none` when the
conversion that initialises `good_latency` is undefined. -/
def trialsExecuted (c : State) (trials : Nat → Trial) : Option Nat :=
  match goodLatency c with
  | none => none
  | some good_latency => some (syncIters good_latency trials 10 0 (2 ^ 64 - 1))

/-- The pair delta `t2 - t1` of iteration `i` of a measuring loop. -/
def delta (reads : Nat → TscPair) (i : Nat) : Nat := sub64 (reads i).t2 (reads i).t1

/-- Three trials of widths 60, 40 and 30 cycles (every later trial repeats the third). -/
def sampleTrials : Nat → Trial := fun i =>
  if i = 0 then ⟨100, 0, 1000, 160⟩ else if i = 1 then ⟨200, 0, 2000, 240⟩
  else ⟨300, 0, 3000, 330⟩

/-- Counter reads on a machine where two consecutive reads return the same value. -/
def quietReads : Nat → TscPair := fun _ => ⟨0, 0⟩

/-- Bracketed wall-clock reads that all observe the sync point `p`: the counter reads
`p.cycles_` on both sides and the wall clock reads `p.ns_` nanoseconds. -/
def trialsAt (p : SyncPoint) : Nat → Trial := fun _ => ⟨p.cycles_, 0, p.ns_, p.cycles_⟩

/-- Runs of `init` followed by `recalibrate` calls in which every multiplier that is
computed comes from a known frequency of `k` kHz with `10^6 < k ≤ 10^6 * 2^64`, or
from two samples whose deltas satisfy `0 < ns < cycles`. -/
inductive PosRun : State → Prop
  | known (c : State) (p0 p1 : SyncPoint) (s : State) (k : Nat) :
      c.mhz_.man ≠ 0 → khzOf c.mhz_ = some k → 1000000 < k → k ≤ 1000000 * 2 ^ 64 →
      initFrom c p0 p1 = some s → PosRun s
  | sampled (c : State) (p0 p1 : SyncPoint) (s : State) :
      c.mhz_.man = 0 → 0 < sub64 p1.ns_ p0.ns_ →
      sub64 p1.ns_ p0.ns_ < sub64 p1.cycles_ p0.cycles_ →
      initFrom c p0 p1 = some s → PosRun s
  | recal (c : State) (p : SyncPoint) (s : State) :
      PosRun c →
      (c.mhz_.man = 0 → nsDiff c p < 50000000 →
        0 < sub64 p.ns_ c.p_start_.ns_ ∧
        sub64 p.ns_ c.p_start_.ns_ < sub64 p.cycles_ c.p_start_.cycles_) →
      recalibrateAt c p = some s → PosRun s

/-! ## Arithmetic lemmas -/

theorem roundToDouble_of_lt {x : Nat} (h : x < 2 ^ 53) : roundToDouble x = x := by
  unfold roundToDouble
  rw [if_pos h]

theorem sub64_lt (a b : Nat) : sub64 a b < 2 ^ 64 := Nat.mod_lt _ (by norm_num)

theorem add64_lt (a b : Nat) : add64 a b < 2 ^ 64 := Nat.mod_lt _ (by norm_num)

theorem add64_sub64_cancel (a b : Nat) (ha : a < 2 ^ 64) (hb : b < 2 ^ 64) :
    add64 (sub64 a b) b = a := by
  unfold add64 sub64
  omega

theorem sub64_of_le {a b : Nat} (hba : b ≤ a) (ha : a < 2 ^ 64) : sub64 a b = a - b := by
  unfold sub64
  omega

/-- Scaling by the quotient `k * 2^64 / m` loses at most one unit on a multiple of `m`. -/
theorem mul_scaled_quot (m n k : Nat) (hm : 0 < m) (hn : m * n < 2 ^ 64) :
    m * n * (k * 2 ^ 64 / m) / 2 ^ 64 = k * n ∨ m * n * (k * 2 ^ 64 / m) / 2 ^ 64 + 1 = k * n := by
  have hdm := Nat.div_add_mod (k * 2 ^ 64) m
  have hrem : n * (k * 2 ^ 64 % m) < 2 ^ 64 := by
    have := Nat.mod_lt (k * 2 ^ 64) hm
    calc n * (k * 2 ^ 64 % m) ≤ n * m := Nat.mul_le_mul_left _ (le_of_lt this)
      _ = m * n := Nat.mul_comm _ _
      _ < 2 ^ 64 := hn
  have hsum : m * n * (k * 2 ^ 64 / m) + n * (k * 2 ^ 64 % m) = k * n * 2 ^ 64 := by
    calc m * n * (k * 2 ^ 64 / m) + n * (k * 2 ^ 64 % m)
        = n * (m * (k * 2 ^ 64 / m) + k * 2 ^ 64 % m) := by ring
      _ = n * (k * 2 ^ 64) := by rw [hdm]
      _ = k * n * 2 ^ 64 := by ring
  generalize m * n * (k * 2 ^ 64 / m) = X at hsum ⊢
  generalize n * (k * 2 ^ 64 % m) = e at hsum hrem
  generalize k * n = Y at hsum ⊢
  omega

/-! ## The conversion functions on 64-bit values -/

theorem cyclesToNs_eq (c : State) (cycles : Nat) (hc : cycles < 2 ^ 64)
    (hr : c.scaled_ns_per_cycle_ < 2 ^ 64) :
    cyclesToNs c cycles = cycles * c.scaled_ns_per_cycle_ / 2 ^ 64 := by
  have hlt : cycles * c.scaled_ns_per_cycle_ < 2 ^ 64 * 2 ^ 64 :=
    calc cycles * c.scaled_ns_per_cycle_ ≤ cycles * 2 ^ 64 :=
          Nat.mul_le_mul_left _ (le_of_lt hr)
      _ < 2 ^ 64 * 2 ^ 64 := Nat.mul_lt_mul_of_pos_right hc (by norm_num)
  have h128 : cycles * c.scaled_ns_per_cycle_ < 2 ^ 128 := by
    calc cycles * c.scaled_ns_per_cycle_ < 2 ^ 64 * 2 ^ 64 := hlt
      _ = 2 ^ 128 := by norm_num
  have hq : cycles * c.scaled_ns_per_cycle_ / 2 ^ 64 < 2 ^ 64 :=
    Nat.div_lt_of_lt_mul hlt
  unfold cyclesToNs
  rw [Nat.mod_eq_of_lt h128, Nat.mod_eq_of_lt hq]

theorem cyclesToNs_lt (c : State) (cycles : Nat) : cyclesToNs c cycles < 2 ^ 64 := by
  unfold cyclesToNs
  exact Nat.mod_lt _ (by norm_num)

theorem cyclesToNs_mono (c : State) (hr : c.scaled_ns_per_cycle_ < 2 ^ 64) {t1 t2 : Nat}
    (h12 : t1 ≤ t2) (h2 : t2 < 2 ^ 64) : cyclesToNs c t1 ≤ cyclesToNs c t2 := by
  rw [cyclesToNs_eq c t1 (lt_of_le_of_lt h12 h2) hr, cyclesToNs_eq c t2 h2 hr]
  exact Nat.div_le_div_right (Nat.mul_le_mul_right _ h12)

theorem cyclesToNs_anchored (c : State) (r : Nat) (p : SyncPoint) (x : Nat) :
    cyclesToNs (anchored c r p) x = x * r % 2 ^ 128 / 2 ^ 64 % 2 ^ 64 := rfl

theorem cyclesToEpochNs_anchored (c : State) (r : Nat) (p : SyncPoint) (hp : p.ns_ < 2 ^ 64) :
    cyclesToEpochNs (anchored c r p) p.cycles_ = p.ns_ := by
  have hx : p.cycles_ * r % 2 ^ 128 / 2 ^ 64 % 2 ^ 64 < 2 ^ 64 := Nat.mod_lt _ (by norm_num)
  show add64 (sub64 p.ns_ (p.cycles_ * r % 2 ^ 128 / 2 ^ 64 % 2 ^ 64))
    (p.cycles_ * r % 2 ^ 128 / 2 ^ 64 % 2 ^ 64) = p.ns_
  exact add64_sub64_cancel _ _ hp hx

/-! ## `init` and `recalibrate` in closed form -/

theorem initFrom_eq (c : State) (p0 p1 : SyncPoint) :
    initFrom c p0 p1 =
      (initQuot c p0 p1).map (fun r => anchored { c with p_start_ := p0 } r p0) := by
  unfold initFrom initQuot
  by_cases h : c.mhz_.man ≠ 0
  · simp only [if_pos h]
    cases knownQuot c.mhz_ <;> rfl
  · simp only [if_neg h]
    cases scaledQuot (sub64 p1.ns_ p0.ns_) (sub64 p1.cycles_ p0.cycles_) <;> rfl

theorem recalibrateAt_eq (c : State) (p : SyncPoint) :
    recalibrateAt c p =
      (if c.mhz_.man = 0 ∧ nsDiff c p < 50000000 then
        scaledQuot (sub64 p.ns_ c.p_start_.ns_) (sub64 p.cycles_ c.p_start_.cycles_)
       else some c.scaled_ns_per_cycle_).map (fun r => anchored c r p) := by
  unfold recalibrateAt
  by_cases h : c.mhz_.man = 0 ∧ nsDiff c p < 50000000
  · simp only [if_pos h]
    cases scaledQuot (sub64 p.ns_ c.p_start_.ns_) (sub64 p.cycles_ c.p_start_.cycles_) <;> rfl
  · simp only [if_neg h]
    rfl

theorem scaledQuot_pos {ns cycles : Nat} (hc : 0 < cycles) :
    scaledQuot ns cycles = some ((ns * 2 ^ 64) % 2 ^ 128 / cycles % 2 ^ 64) := by
  unfold scaledQuot
  rw [if_neg (by omega)]

theorem scaledQuot_lt {ns cycles r : Nat} (h : scaledQuot ns cycles = some r) : r < 2 ^ 64 := by
  unfold scaledQuot at h
  split at h
  · exact absurd h (by simp)
  · cases h
    exact Nat.mod_lt _ (by norm_num)

theorem knownQuot_lt {d : Dbl} {r : Nat} (h : knownQuot d = some r) : r < 2 ^ 64 := by
  unfold knownQuot at h
  split at h
  · exact absurd h (by simp)
  · split at h
    · exact absurd h (by simp)
    · cases h
      exact Nat.mod_lt _ (by norm_num)

theorem initQuot_lt {c : State} {p0 p1 : SyncPoint} {r : Nat} (h : initQuot c p0 p1 = some r) :
    r < 2 ^ 64 := by
  unfold initQuot at h
  split at h
  · exact knownQuot_lt h
  · exact scaledQuot_lt h

theorem initFrom_scaled_lt {c : State} {p0 p1 : SyncPoint} {s : State}
    (h : initFrom c p0 p1 = some s) : s.scaled_ns_per_cycle_ < 2 ^ 64 := by
  rw [initFrom_eq] at h
  cases hq : initQuot c p0 p1 with
  | none => rw [hq] at h; exact absurd h (by simp)
  | some r =>
    rw [hq] at h
    cases h
    exact initQuot_lt hq

theorem recalibrateAt_scaled_lt {c : State} {p : SyncPoint} {s : State}
    (hc : c.scaled_ns_per_cycle_ < 2 ^ 64) (h : recalibrateAt c p = some s) :
    s.scaled_ns_per_cycle_ < 2 ^ 64 := by
  rw [recalibrateAt_eq] at h
  split at h
  · cases hq : scaledQuot (sub64 p.ns_ c.p_start_.ns_) (sub64 p.cycles_ c.p_start_.cycles_) with
    | none => rw [hq] at h; exact absurd h (by simp)
    | some r =>
      rw [hq] at h
      cases h
      exact scaledQuot_lt hq
  · cases h
    exact hc

/-- A completed `init` is a completed run of its body on two sync points. -/
theorem init_some {c : State} {pairs brackets : Nat → TscPair} {tr0 tr1 : Nat → Trial}
    {s : State} (h : init c pairs brackets tr0 tr1 = some s) :
    ∃ p0 p1, initFrom (measureCallLatencies c pairs brackets) p0 p1 = some s := by
  unfold init at h
  simp only [] at h
  split at h
  · exact absurd h (by simp)
  · rename_i p0 _
    split at h
    · exact ⟨p0, p0, h⟩
    · split at h
      · exact absurd h (by simp)
      · rename_i p1 _
        exact ⟨p0, p1, h⟩

/-- A completed `recalibrate` is a completed run of its body on a sync point. -/
theorem recalibrate_some {c : State} {trials : Nat → Trial} {s : State}
    (h : recalibrate c trials = some s) : ∃ p, recalibrateAt c p = some s := by
  unfold recalibrate at h
  split at h
  · exact absurd h (by simp)
  · rename_i p _
    exact ⟨p, h⟩

theorem Calibrated.scaled_lt {s : State} (h : Calibrated s) :
    s.scaled_ns_per_cycle_ < 2 ^ 64 := by
  induction h with
  | init c pairs brackets tr0 tr1 s h =>
    obtain ⟨p0, p1, h1⟩ := init_some h
    exact initFrom_scaled_lt h1
  | recal c trials s _ h ih =>
    obtain ⟨p, h1⟩ := recalibrate_some h
    exact recalibrateAt_scaled_lt ih h1

theorem knownQuot_int (mhz : Nat) (hm : 1000 < mhz)
    (hexact : roundToDouble (mhz * 1000) = mhz * 1000) (hfit : mhz * 1000 < 2 ^ 128) :
    knownQuot ⟨mhz, 0⟩ = some (1000 * 2 ^ 64 / mhz) := by
  have hk : khzOf ⟨mhz, 0⟩ = some (mhz * 1000) := by
    simp only [khzOf, hexact, pow_zero, Nat.div_one, if_pos hfit]
  have hne : mhz * 1000 ≠ 0 := by omega
  have hdiv : (1000000 * 2 ^ 64) % 2 ^ 128 / (mhz * 1000) = 1000 * 2 ^ 64 / mhz := by
    have : (1000000 * 2 ^ 64) % 2 ^ 128 = 1000 * (1000 * 2 ^ 64) := by norm_num
    rw [this, Nat.mul_comm mhz 1000, Nat.mul_div_mul_left _ _ (by norm_num : 0 < 1000)]
  have hlt : 1000 * 2 ^ 64 / mhz < 2 ^ 64 := by
    apply Nat.div_lt_of_lt_mul
    omega
  simp only [knownQuot, hk, if_neg hne, hdiv, Nat.mod_eq_of_lt hlt]

/-! ## Stored multipliers and the baseline -/

theorem scaledQuot_of_lt {ns cycles : Nat} (h : ns < cycles) (hc : cycles < 2 ^ 64) :
    scaledQuot ns cycles = some (ns * 2 ^ 64 / cycles) := by
  have hpos : 0 < cycles := by omega
  have h128 : ns * 2 ^ 64 < 2 ^ 128 := by
    calc ns * 2 ^ 64 < 2 ^ 64 * 2 ^ 64 := Nat.mul_lt_mul_of_pos_right (by omega) (by norm_num)
      _ = 2 ^ 128 := by norm_num
  have hq : ns * 2 ^ 64 / cycles < 2 ^ 64 :=
    Nat.div_lt_of_lt_mul (Nat.mul_lt_mul_of_pos_right h (by norm_num))
  rw [scaledQuot_pos hpos, Nat.mod_eq_of_lt h128, Nat.mod_eq_of_lt hq]

theorem scaledQuot_of_lt64 {ns cycles : Nat} (hn : ns < 2 ^ 64) (hpos : 0 < cycles) :
    scaledQuot ns cycles = some (ns * 2 ^ 64 / cycles % 2 ^ 64) := by
  have h128 : ns * 2 ^ 64 < 2 ^ 128 := by
    calc ns * 2 ^ 64 < 2 ^ 64 * 2 ^ 64 := Nat.mul_lt_mul_of_pos_right hn (by norm_num)
      _ = 2 ^ 128 := by norm_num
  rw [scaledQuot_pos hpos, Nat.mod_eq_of_lt h128]

theorem quot_pos_of_lt {ns cycles : Nat} (h0 : 0 < ns) (hpos : 0 < cycles)
    (hc : cycles < 2 ^ 64) : 0 < ns * 2 ^ 64 / cycles := by
  apply Nat.div_pos _ hpos
  calc cycles ≤ 1 * 2 ^ 64 := by omega
    _ ≤ ns * 2 ^ 64 := Nat.mul_le_mul_right _ h0

theorem initFrom_p_start {c : State} {p0 p1 : SyncPoint} {s : State}
    (h : initFrom c p0 p1 = some s) : s.p_start_ = p0 ∧ s.mhz_ = c.mhz_ := by
  rw [initFrom_eq] at h
  cases hq : initQuot c p0 p1 with
  | none => rw [hq] at h; exact absurd h (by simp)
  | some r =>
    rw [hq] at h
    cases h
    exact ⟨rfl, rfl⟩

theorem recalibrateAt_p_start {c : State} {p : SyncPoint} {s : State}
    (h : recalibrateAt c p = some s) : s.p_start_ = c.p_start_ ∧ s.mhz_ = c.mhz_ := by
  rw [recalibrateAt_eq] at h
  cases hq : (if c.mhz_.man = 0 ∧ nsDiff c p < 50000000 then
      scaledQuot (sub64 p.ns_ c.p_start_.ns_) (sub64 p.cycles_ c.p_start_.cycles_)
     else some c.scaled_ns_per_cycle_) with
  | none => rw [hq] at h; exact absurd h (by simp)
  | some r =>
    rw [hq] at h
    cases h
    exact ⟨rfl, rfl⟩

theorem recalibrateAt_recompute {c : State} {p : SyncPoint} {s : State}
    (h0 : c.mhz_.man = 0) (hd : nsDiff c p < 50000000) (h : recalibrateAt c p = some s) :
    some s.scaled_ns_per_cycle_ =
      scaledQuot (sub64 p.ns_ c.p_start_.ns_) (sub64 p.cycles_ c.p_start_.cycles_) := by
  rw [recalibrateAt_eq, if_pos ⟨h0, hd⟩] at h
  cases hq : scaledQuot (sub64 p.ns_ c.p_start_.ns_) (sub64 p.cycles_ c.p_start_.cycles_) with
  | none => rw [hq] at h; exact absurd h (by simp)
  | some r =>
    rw [hq] at h
    cases h
    rfl

/-! ## The entry points and the sampled sync points -/

/-- On the known-frequency path the body of `init` does not read the second sync point. -/
theorem initFrom_known (c : State) (p0 p1 p2 : SyncPoint) (h : c.mhz_.man ≠ 0) :
    initFrom c p0 p1 = initFrom c p0 p2 := by
  rw [initFrom_eq, initFrom_eq]
  unfold initQuot
  rw [if_pos h, if_pos h]

/-- The sampler is defined exactly when the conversion of `good_latency` is. -/
theorem getSyncTimePoint_eq (c : State) (trials : Nat → Trial) (g : Nat)
    (hg : goodLatency c = some g) :
    getSyncTimePoint c trials = some (syncLoop c g trials 10 0 (2 ^ 64 - 1) {}) := by
  unfold getSyncTimePoint
  rw [hg]

theorem measureCallLatencies_mhz (c : State) (pairs brackets : Nat → TscPair) :
    (measureCallLatencies c pairs brackets).mhz_ = c.mhz_ := by
  unfold measureCallLatencies
  rfl

/-- When the conversion of `good_latency` is defined, `init` is its body run on the two
sampled sync points. -/
theorem init_eq_initFrom (c : State) (pairs brackets : Nat → TscPair) (tr0 tr1 : Nat → Trial)
    (g : Nat) (hg : goodLatency (measureCallLatencies c pairs brackets) = some g) :
    init c pairs brackets tr0 tr1 =
      initFrom (measureCallLatencies c pairs brackets)
        (syncLoop (measureCallLatencies c pairs brackets) g tr0 10 0 (2 ^ 64 - 1) {})
        (syncLoop (measureCallLatencies c pairs brackets) g tr1 10 0 (2 ^ 64 - 1) {}) := by
  unfold init
  simp only [getSyncTimePoint_eq _ _ g hg]
  split
  · rename_i h
    exact initFrom_known _ _ _ _ h
  · rfl

/-- When the conversion of `good_latency` is defined, `recalibrate` is its body run on the
sampled sync point. -/
theorem recalibrate_eq_recalibrateAt (c : State) (trials : Nat → Trial) (g : Nat)
    (hg : goodLatency c = some g) :
    recalibrate c trials = recalibrateAt c (syncLoop c g trials 10 0 (2 ^ 64 - 1) {}) := by
  unfold recalibrate
  rw [getSyncTimePoint_eq c trials g hg]

/-- Every sync point of 64-bit values is returned by `getSyncTimePoint` on some readings. -/
theorem getSyncTimePoint_any (c : State) (p : SyncPoint) (hn : p.ns_ < 2 ^ 64)
    (hc : p.cycles_ < 2 ^ 64) (hl : c.rdtsc_latency_ < 2 ^ 64) (g : Nat)
    (hg : goodLatency c = some g) :
    ∃ trials, getSyncTimePoint c trials = some p := by
  refine ⟨fun _ => ⟨sub64 p.cycles_ c.rdtsc_latency_, 0, p.ns_,
    sub64 p.cycles_ c.rdtsc_latency_⟩, ?_⟩
  have hd : sub64 (sub64 p.cycles_ c.rdtsc_latency_) (sub64 p.cycles_ c.rdtsc_latency_) = 0 := by
    unfold sub64
    omega
  have hcy : add64 (sub64 p.cycles_ c.rdtsc_latency_) c.rdtsc_latency_ = p.cycles_ := by
    unfold add64 sub64
    omega
  have hns : (0 * 1000000000 + p.ns_) % 2 ^ 64 = p.ns_ := by omega
  rw [getSyncTimePoint_eq c _ g hg]
  simp only [syncLoop, hd, hcy, hns]
  rw [if_neg (by norm_num), if_pos (Nat.zero_le _)]

/-! ## The claims -/

/-- Claim C1, amended (known-frequency exactness). For every state and all sync points,
`init` after `setMHz(2000)` stores the multiplier `2^63` and converts 2_000_000_000
cycles to exactly 1_000_000_000 ns. For every integer frequency `mhz > 1000` whose kHz
value `mhz * 1000` is itself a double (the product `mhz_ * 1000` is not rounded) and
fits 128 bits, `init` stores `1000 * 2^64 / mhz`, and every cycle count `mhz * n` below
`2^64` converts to `1000 * n` or `1000 * n - 1` ns. -/
theorem knownFrequency_exact (c : State) (p0 p1 : SyncPoint) (mhz : Nat) (hm : 1000 < mhz)
    (hexact : roundToDouble (mhz * 1000) = mhz * 1000) (hfit : mhz * 1000 < 2 ^ 128) :
    (∃ s, initFrom (setMHz c ⟨2000, 0⟩) p0 p1 = some s ∧
      s.scaled_ns_per_cycle_ = 2 ^ 63 ∧ cyclesToNs s 2000000000 = 1000000000) ∧
    ∃ s, initFrom (setMHz c ⟨mhz, 0⟩) p0 p1 = some s ∧
      s.scaled_ns_per_cycle_ = 1000 * 2 ^ 64 / mhz ∧
      ∀ n, mhz * n < 2 ^ 64 →
        cyclesToNs s (mhz * n) = 1000 * n ∨ cyclesToNs s (mhz * n) + 1 = 1000 * n := by
  constructor
  · have hq : initQuot (setMHz c ⟨2000, 0⟩) p0 p1 = some (2 ^ 63) := by
      have h := knownQuot_int 2000 (by norm_num) (roundToDouble_of_lt (by norm_num)) (by norm_num)
      have h2 : (1000 * 2 ^ 64 / 2000 : Nat) = 2 ^ 63 := by norm_num
      rw [h2] at h
      simp only [initQuot, setMHz, ne_eq, not_false_eq_true, if_true]
      exact h
    refine ⟨_, by rw [initFrom_eq, hq]; rfl, rfl, ?_⟩
    rw [cyclesToNs_anchored]
    norm_num
  · have hq : initQuot (setMHz c ⟨mhz, 0⟩) p0 p1 = some (1000 * 2 ^ 64 / mhz) := by
      have hne : mhz ≠ 0 := by omega
      simp only [initQuot, setMHz, ne_eq, hne, not_false_eq_true, if_true]
      exact knownQuot_int mhz hm hexact hfit
    have hlt : 1000 * 2 ^ 64 / mhz < 2 ^ 64 := by
      apply Nat.div_lt_of_lt_mul
      omega
    refine ⟨_, by rw [initFrom_eq, hq]; rfl, rfl, ?_⟩
    intro n hn
    rw [cyclesToNs_eq _ _ hn hlt]
    exact mul_scaled_quot mhz n 1000 (by omega) hn

/-- Witness of C1: 3000 MHz, sync point (5 ns, 7 cycles). -/
theorem knownFrequency_exact_witness :
    (∃ s, initFrom (setMHz {} ⟨2000, 0⟩) ⟨5, 7⟩ {} = some s ∧
      s.scaled_ns_per_cycle_ = 2 ^ 63 ∧ cyclesToNs s 2000000000 = 1000000000) ∧
    ∃ s, initFrom (setMHz {} ⟨3000, 0⟩) ⟨5, 7⟩ {} = some s ∧
      s.scaled_ns_per_cycle_ = 1000 * 2 ^ 64 / 3000 ∧
      ∀ n, 3000 * n < 2 ^ 64 →
        cyclesToNs s (3000 * n) = 1000 * n ∨ cyclesToNs s (3000 * n) + 1 = 1000 * n :=
  knownFrequency_exact {} ⟨5, 7⟩ {} 3000 (by decide) (by decide) (by decide)

/-- Counterexample to C1 as stated: 287659551728750 MHz is a double above 1000, but the
double product `mhz_ * 1000` is rounded from 287659551728750000 to 287659551728750016;
after `setMHz` and `init`, `cyclesToNs(mhz * 64127)` is 64126998, which is neither
`1000 * 64127` nor `1000 * 64127 - 1`. -/
theorem knownFrequency_rounding_counterexample :
    roundToDouble 287659551728750 = 287659551728750 ∧
    1000 < 287659551728750 ∧ 287659551728750 * 64127 < 2 ^ 64 ∧
    (init (setMHz {} ⟨287659551728750, 0⟩) quietReads quietReads (trialsAt {}) (trialsAt {})).map
        (fun s => cyclesToNs s (287659551728750 * 64127)) = some 64126998 ∧
    64126998 ≠ 1000 * 64127 ∧ 64126998 + 1 ≠ 1000 * 64127 := by
  decide

/-- Counterexample to C2 as stated: after `setMHz(2000)` and an `init` that captures the
sync point (1 ns, 4 cycles), `start_ns_` is `1 - 2` in 64 bits, so counter value 0
converts to `2^64 - 1` and the later counter value 4 converts to 1. -/
theorem monotonicity_wrap_counterexample :
    (init (setMHz {} ⟨2000, 0⟩) quietReads quietReads (trialsAt ⟨1, 4⟩) (trialsAt ⟨1, 4⟩)).map
        (fun s => (cyclesToEpochNs s 0, cyclesToEpochNs s 4)) = some (18446744073709551615, 1) ∧
    (0 : Nat) ≤ 4 ∧ ¬ (18446744073709551615 ≤ 1) := by
  decide

/-- Claim C2, amended (monotonicity). In every state reached by `init` and any number of
`recalibrate` calls, for counter values `t1 ≤ t2 < 2^64` whose conversion does not wrap
(`start_ns_ + cyclesToNs(t2) < 2^64`), `cyclesToEpochNs(t1) ≤ cyclesToEpochNs(t2)`. -/
theorem cyclesToEpochNs_mono (s : State) (hs : Calibrated s) (t1 t2 : Nat) (h12 : t1 ≤ t2)
    (h2 : t2 < 2 ^ 64) (hno : s.start_ns_ + cyclesToNs s t2 < 2 ^ 64) :
    cyclesToEpochNs s t1 ≤ cyclesToEpochNs s t2 := by
  have hm := cyclesToNs_mono s hs.scaled_lt h12 h2
  unfold cyclesToEpochNs add64
  rw [Nat.mod_eq_of_lt hno, Nat.mod_eq_of_lt (by omega)]
  omega

/-- Witness of C2: the state after `setMHz(2000)` and `init` at (1000 ns, 4 cycles),
counter values 4 and 10. -/
theorem cyclesToEpochNs_mono_witness :
    cyclesToEpochNs ⟨2 ^ 63, 998, ⟨1000, 4⟩, ⟨2000, 0⟩, 0, 0⟩ 4 ≤
      cyclesToEpochNs ⟨2 ^ 63, 998, ⟨1000, 4⟩, ⟨2000, 0⟩, 0, 0⟩ 10 :=
  cyclesToEpochNs_mono _
    (Calibrated.init (setMHz {} ⟨2000, 0⟩) quietReads quietReads (trialsAt ⟨1000, 4⟩)
      (trialsAt ⟨1000, 4⟩) _ (by decide))
    4 10 (by decide) (by decide) (by decide)

/-- Claim C3 (anchor exactness). For every sync point `p` with a 64-bit `ns_`: a completed
`init` that captured `p` (on either path, whatever second sample) stores `p` and
converts `p.cycles_` to `p.ns_`; a completed `recalibrate` that captured `p` converts
`p.cycles_` to `p.ns_`, from every state, whether or not the multiplier was
recomputed. -/
theorem anchor_exact (p : SyncPoint) (hp : p.ns_ < 2 ^ 64) :
    (∀ c p1 s, initFrom c p p1 = some s →
      s.p_start_ = p ∧ cyclesToEpochNs s p.cycles_ = p.ns_) ∧
    (∀ c s, recalibrateAt c p = some s → cyclesToEpochNs s p.cycles_ = p.ns_) := by
  constructor
  · intro c p1 s h
    rw [initFrom_eq] at h
    cases hq : initQuot c p p1 with
    | none => rw [hq] at h; exact absurd h (by simp)
    | some r =>
      rw [hq] at h
      cases h
      exact ⟨rfl, cyclesToEpochNs_anchored _ r p hp⟩
  · intro c s h
    rw [recalibrateAt_eq] at h
    cases hq : (if c.mhz_.man = 0 ∧ nsDiff c p < 50000000 then
        scaledQuot (sub64 p.ns_ c.p_start_.ns_) (sub64 p.cycles_ c.p_start_.cycles_)
       else some c.scaled_ns_per_cycle_) with
    | none => rw [hq] at h; exact absurd h (by simp)
    | some r =>
      rw [hq] at h
      cases h
      exact cyclesToEpochNs_anchored _ r p hp

/-- Witness of C3: `init` capturing (1000 ns, 40 cycles), and a `recalibrate` capturing
(12 ns, 40 cycles) that recomputes the multiplier. -/
theorem anchor_exact_witness :
    (initFrom {} ⟨1000, 40⟩ ⟨1010, 80⟩).map (fun s => cyclesToEpochNs s 40) = some 1000 ∧
    (recalibrateAt ⟨2 ^ 62, 0, ⟨0, 0⟩, {}, 0, 0⟩ ⟨12, 40⟩).map
      (fun s => cyclesToEpochNs s 40) = some 12 := by
  have h := anchor_exact ⟨1000, 40⟩ (by decide)
  constructor
  · have e : initFrom {} ⟨1000, 40⟩ ⟨1010, 80⟩ =
        some ⟨2 ^ 62, 990, ⟨1000, 40⟩, {}, 0, 0⟩ := by decide
    rw [e]
    exact congrArg some (h.1 _ _ _ e).2
  · have h12 := anchor_exact ⟨12, 40⟩ (by decide)
    have e : recalibrateAt ⟨2 ^ 62, 0, ⟨0, 0⟩, {}, 0, 0⟩ ⟨12, 40⟩ =
        some ⟨5534023222112865484, 1, ⟨0, 0⟩, {}, 0, 0⟩ := by decide
    rw [e]
    exact congrArg some (h12.2 _ _ e)

/-- Counterexample to C5 as stated: from the state `init` reaches with samples (0, 0) and
(1 ns, 2 cycles), a `recalibrate` that captures (1000 ns, 1000 cycles) has drift 500 ns
and a positive cycle delta, the quotient `1000 * 2^64 / 1000` is `2^64`, and the
multiplier stored is 0. -/
theorem recalibrate_quotient_wrap_counterexample :
    init {} quietReads quietReads (trialsAt ⟨0, 0⟩) (trialsAt ⟨1, 2⟩) =
      some ⟨2 ^ 63, 0, ⟨0, 0⟩, {}, 0, 0⟩ ∧
    nsDiff ⟨2 ^ 63, 0, ⟨0, 0⟩, {}, 0, 0⟩ ⟨1000, 1000⟩ = 500 ∧
    0 < 1000 - 0 ∧
    recalibrate ⟨2 ^ 63, 0, ⟨0, 0⟩, {}, 0, 0⟩ (trialsAt ⟨1000, 1000⟩) =
      some ⟨0, 1000, ⟨0, 0⟩, {}, 0, 0⟩ ∧
    (1000 - 0) * 2 ^ 64 / (1000 - 0) = 18446744073709551616 := by
  decide

/-- Claim C5, amended (small-drift recalibration recomputes the multiplier). With no
known frequency, drift below 50_000_000 ns and a non-zero 64-bit cycle delta from
`p_start_`, `recalibrate` completes and stores the quotient
`(ns delta) * 2^64 / (cycle delta)` reduced modulo `2^64`, the deltas being 64-bit
differences from `p_start_`; this is the quotient itself when the ns delta is below the
cycle delta, and it is the multiplier the second-sample path of `init` stores for the
same two points. -/
theorem recalibrate_recomputes_multiplier (c : State) (p : SyncPoint) (h0 : c.mhz_.man = 0)
    (hd : nsDiff c p < 50000000) (hc : 0 < sub64 p.cycles_ c.p_start_.cycles_) :
    ∃ s, recalibrateAt c p = some s ∧
      s.scaled_ns_per_cycle_ =
        sub64 p.ns_ c.p_start_.ns_ * 2 ^ 64 / sub64 p.cycles_ c.p_start_.cycles_ % 2 ^ 64 ∧
      (sub64 p.ns_ c.p_start_.ns_ < sub64 p.cycles_ c.p_start_.cycles_ →
        s.scaled_ns_per_cycle_ =
          sub64 p.ns_ c.p_start_.ns_ * 2 ^ 64 / sub64 p.cycles_ c.p_start_.cycles_) ∧
      ∀ c0 s0, c0.mhz_.man = 0 → initFrom c0 c.p_start_ p = some s0 →
        s0.scaled_ns_per_cycle_ = s.scaled_ns_per_cycle_ := by
  have hq := scaledQuot_of_lt64 (sub64_lt p.ns_ c.p_start_.ns_) hc
  refine ⟨_, by rw [recalibrateAt_eq, if_pos ⟨h0, hd⟩, hq]; rfl, rfl, ?_, ?_⟩
  · intro hlt
    have := scaledQuot_of_lt hlt (sub64_lt _ _)
    rw [hq] at this
    exact Option.some.inj this
  · intro c0 s0 hc0 hs0
    rw [initFrom_eq] at hs0
    have hi : initQuot c0 c.p_start_ p =
        some (sub64 p.ns_ c.p_start_.ns_ * 2 ^ 64 / sub64 p.cycles_ c.p_start_.cycles_ % 2 ^ 64) := by
      unfold initQuot
      rw [if_neg (by omega), hq]
    rw [hi] at hs0
    cases hs0
    rfl

/-- Witness of C5: baseline (0, 0), captured point (1000600 ns, 2000000 cycles). -/
theorem recalibrate_recomputes_multiplier_witness :
    ∃ s, recalibrateAt ⟨2 ^ 63, 0, ⟨0, 0⟩, {}, 0, 0⟩ ⟨1000600, 2000000⟩ = some s ∧
      s.scaled_ns_per_cycle_ =
        sub64 1000600 0 * 2 ^ 64 / sub64 2000000 0 % 2 ^ 64 ∧
      (sub64 1000600 0 < sub64 2000000 0 →
        s.scaled_ns_per_cycle_ = sub64 1000600 0 * 2 ^ 64 / sub64 2000000 0) ∧
      ∀ c0 s0, c0.mhz_.man = 0 → initFrom c0 ⟨0, 0⟩ ⟨1000600, 2000000⟩ = some s0 →
        s0.scaled_ns_per_cycle_ = s.scaled_ns_per_cycle_ :=
  recalibrate_recomputes_multiplier ⟨2 ^ 63, 0, ⟨0, 0⟩, {}, 0, 0⟩ ⟨1000600, 2000000⟩
    (by decide) (by decide) (by decide)

/-- Counterexample to C6 as stated: `init` captures (0, 0); a `recalibrate` capturing
(10 ns, 40 cycles) leaves `p_start_` at (0, 0); the next `recalibrate`, capturing
(30 ns, 80 cycles), stores the quotient 30/80 taken from (0, 0), not the quotient 20/40
taken from (10, 40). -/
theorem recalibrate_baseline_counterexample :
    init {} quietReads quietReads (trialsAt ⟨0, 0⟩) (trialsAt ⟨1, 4⟩) =
      some ⟨2 ^ 62, 0, ⟨0, 0⟩, {}, 0, 0⟩ ∧
    recalibrate ⟨2 ^ 62, 0, ⟨0, 0⟩, {}, 0, 0⟩ (trialsAt ⟨10, 40⟩) =
      some ⟨2 ^ 62, 0, ⟨0, 0⟩, {}, 0, 0⟩ ∧
    recalibrate ⟨2 ^ 62, 0, ⟨0, 0⟩, {}, 0, 0⟩ (trialsAt ⟨30, 80⟩) =
      some ⟨6917529027641081856, 0, ⟨0, 0⟩, {}, 0, 0⟩ ∧
    (⟨0, 0⟩ : SyncPoint) ≠ ⟨10, 40⟩ ∧
    scaledQuot (30 - 0) (80 - 0) = some 6917529027641081856 ∧
    scaledQuot (30 - 10) (80 - 40) = some 9223372036854775808 := by
  decide

/-- Claim C6, amended (the baseline is the sync point of `init`). In the sequence `init`
capturing `p0`, `recalibrate` capturing `pA`, `recalibrate` capturing `pB`, the stored
`p_start_` is `p0` after every call, and when the second `recalibrate` recomputes the
multiplier it does so from the deltas between `pB` and `p0`. -/
theorem recalibrate_keeps_baseline (c0 : State) (p0 p1 pA pB : SyncPoint) (s0 sA sB : State)
    (h0 : initFrom c0 p0 p1 = some s0) (hA : recalibrateAt s0 pA = some sA)
    (hB : recalibrateAt sA pB = some sB) :
    s0.p_start_ = p0 ∧ sA.p_start_ = p0 ∧ sB.p_start_ = p0 ∧
    (sA.mhz_.man = 0 → nsDiff sA pB < 50000000 →
      some sB.scaled_ns_per_cycle_ =
        scaledQuot (sub64 pB.ns_ p0.ns_) (sub64 pB.cycles_ p0.cycles_)) := by
  have e0 := (initFrom_p_start h0).1
  have eA := (recalibrateAt_p_start hA).1
  have eB := (recalibrateAt_p_start hB).1
  refine ⟨e0, eA.trans e0, eB.trans (eA.trans e0), ?_⟩
  intro hm hd
  have := recalibrateAt_recompute hm hd hB
  rw [eA.trans e0] at this
  exact this

/-- Witness of C6: the run of the counterexample, (0, 0), (10, 40), (30, 80). -/
theorem recalibrate_keeps_baseline_witness :
    (⟨2 ^ 62, 0, ⟨0, 0⟩, {}, 0, 0⟩ : State).p_start_ = ⟨0, 0⟩ ∧
    (⟨2 ^ 62, 0, ⟨0, 0⟩, {}, 0, 0⟩ : State).p_start_ = ⟨0, 0⟩ ∧
    (⟨6917529027641081856, 0, ⟨0, 0⟩, {}, 0, 0⟩ : State).p_start_ = ⟨0, 0⟩ ∧
    ((⟨2 ^ 62, 0, ⟨0, 0⟩, {}, 0, 0⟩ : State).mhz_.man = 0 →
      nsDiff ⟨2 ^ 62, 0, ⟨0, 0⟩, {}, 0, 0⟩ ⟨30, 80⟩ < 50000000 →
      some (⟨6917529027641081856, 0, ⟨0, 0⟩, {}, 0, 0⟩ : State).scaled_ns_per_cycle_ =
        scaledQuot (sub64 30 0) (sub64 80 0)) :=
  recalibrate_keeps_baseline {} ⟨0, 0⟩ ⟨1, 4⟩ ⟨10, 40⟩ ⟨30, 80⟩
    ⟨2 ^ 62, 0, ⟨0, 0⟩, {}, 0, 0⟩ ⟨2 ^ 62, 0, ⟨0, 0⟩, {}, 0, 0⟩
    ⟨6917529027641081856, 0, ⟨0, 0⟩, {}, 0, 0⟩ (by decide) (by decide) (by decide)

/-- Counterexample to C7 as stated: samples (0, 0) and (1000000 ns, 800000 cycles) have a
positive cycle delta, `floor(1000000 * 2^64 / 800000)` is 23058430092136939520, and
`init` stores 4611686018427387904, that value modulo `2^64`. -/
theorem init_quotient_wrap_counterexample :
    init {} quietReads quietReads (trialsAt ⟨0, 0⟩) (trialsAt ⟨1000000, 800000⟩) =
      some ⟨4611686018427387904, 0, ⟨0, 0⟩, {}, 0, 0⟩ ∧
    0 < 800000 - 0 ∧
    (1000000 - 0) * 2 ^ 64 / (800000 - 0) = 23058430092136939520 ∧
    (4611686018427387904 : Nat) ≠ 23058430092136939520 := by
  decide

/-- Claim C7, amended (two-sample quotient). With no known frequency and a non-zero 64-bit
cycle delta, `init` completes (no division by zero) and stores
`floor((ns delta) * 2^64 / (cycle delta))` reduced modulo `2^64`, the deltas being
64-bit differences; the stored value is the floor itself whenever the ns delta is below
the cycle delta, in particular for `P0 ≤ P1` componentwise with
`P1.ns - P0.ns < P1.cycles - P0.cycles`. -/
theorem init_two_sample_quotient (c : State) (p0 p1 : SyncPoint) (h0 : c.mhz_.man = 0)
    (hc : 0 < sub64 p1.cycles_ p0.cycles_) :
    ∃ s, initFrom c p0 p1 = some s ∧
      s.scaled_ns_per_cycle_ =
        sub64 p1.ns_ p0.ns_ * 2 ^ 64 / sub64 p1.cycles_ p0.cycles_ % 2 ^ 64 ∧
      (sub64 p1.ns_ p0.ns_ < sub64 p1.cycles_ p0.cycles_ →
        s.scaled_ns_per_cycle_ =
          sub64 p1.ns_ p0.ns_ * 2 ^ 64 / sub64 p1.cycles_ p0.cycles_) ∧
      (p0.ns_ ≤ p1.ns_ → p1.ns_ < 2 ^ 64 → p0.cycles_ ≤ p1.cycles_ → p1.cycles_ < 2 ^ 64 →
        p1.ns_ - p0.ns_ < p1.cycles_ - p0.cycles_ →
        s.scaled_ns_per_cycle_ = (p1.ns_ - p0.ns_) * 2 ^ 64 / (p1.cycles_ - p0.cycles_)) := by
  have hq := scaledQuot_of_lt64 (sub64_lt p1.ns_ p0.ns_) hc
  have hi : initQuot c p0 p1 =
      some (sub64 p1.ns_ p0.ns_ * 2 ^ 64 / sub64 p1.cycles_ p0.cycles_ % 2 ^ 64) := by
    unfold initQuot
    rw [if_neg (by omega), hq]
  have hlt : sub64 p1.ns_ p0.ns_ < sub64 p1.cycles_ p0.cycles_ →
      sub64 p1.ns_ p0.ns_ * 2 ^ 64 / sub64 p1.cycles_ p0.cycles_ % 2 ^ 64 =
        sub64 p1.ns_ p0.ns_ * 2 ^ 64 / sub64 p1.cycles_ p0.cycles_ := by
    intro h
    have := scaledQuot_of_lt h (sub64_lt _ _)
    rw [hq] at this
    exact Option.some.inj this
  refine ⟨_, by rw [initFrom_eq, hi]; rfl, rfl, hlt, ?_⟩
  intro hn1 hn2 hc1 hc2 hd
  have en := sub64_of_le hn1 hn2
  have ec := sub64_of_le hc1 hc2
  have := hlt (by rw [en, ec]; exact hd)
  rw [en, ec] at this
  show sub64 p1.ns_ p0.ns_ * 2 ^ 64 / sub64 p1.cycles_ p0.cycles_ % 2 ^ 64 = _
  rw [en, ec]
  exact this

/-- Witness of C7: samples (5000, 7000) and (1005000, 2507000). -/
theorem init_two_sample_quotient_witness :
    ∃ s, initFrom {} ⟨5000, 7000⟩ ⟨1005000, 2507000⟩ = some s ∧
      s.scaled_ns_per_cycle_ = sub64 1005000 5000 * 2 ^ 64 / sub64 2507000 7000 % 2 ^ 64 ∧
      (sub64 1005000 5000 < sub64 2507000 7000 →
        s.scaled_ns_per_cycle_ = sub64 1005000 5000 * 2 ^ 64 / sub64 2507000 7000) ∧
      (5000 ≤ 1005000 → 1005000 < 2 ^ 64 → 7000 ≤ 2507000 → 2507000 < 2 ^ 64 →
        1005000 - 5000 < 2507000 - 7000 →
        s.scaled_ns_per_cycle_ = (1005000 - 5000) * 2 ^ 64 / (2507000 - 7000)) :=
  init_two_sample_quotient {} ⟨5000, 7000⟩ ⟨1005000, 2507000⟩ (by decide) (by decide)

/-- Counterexample to C8 as stated: `init` with the positive known frequency 1000 MHz
stores the multiplier 0 (the quotient is `2^64`), and so does `init` with two samples
1000 ns and 1000 cycles apart. -/
theorem multiplier_zero_counterexample :
    init (setMHz {} ⟨1000, 0⟩) quietReads quietReads (trialsAt ⟨5000, 7000⟩)
        (trialsAt ⟨5000, 7000⟩) =
      some ⟨0, 5000, ⟨5000, 7000⟩, ⟨1000, 0⟩, 0, 0⟩ ∧
    init {} quietReads quietReads (trialsAt ⟨5000, 7000⟩) (trialsAt ⟨6000, 8000⟩) =
      some ⟨0, 5000, ⟨5000, 7000⟩, {}, 0, 0⟩ := by
  decide

/-- Claim C8, amended (positive multiplier). After `init` with a known frequency of `k` kHz,
`10^6 < k ≤ 10^6 * 2^64`, or with two samples whose deltas satisfy `0 < ns < cycles`,
followed by any number of `recalibrate` calls each of which keeps the multiplier or
recomputes it from deltas with `0 < ns < cycles`, the stored multiplier is positive. -/
theorem multiplier_pos (s : State) (h : PosRun s) : 0 < s.scaled_ns_per_cycle_ := by
  induction h with
  | known c p0 p1 s k hm hk h1 h2 hs =>
    have hkne : k ≠ 0 := by omega
    have h128 : (1000000 * 2 ^ 64) % 2 ^ 128 = 1000000 * 2 ^ 64 := by norm_num
    have hlt : 1000000 * 2 ^ 64 / k < 2 ^ 64 :=
      Nat.div_lt_of_lt_mul (Nat.mul_lt_mul_of_pos_right h1 (by norm_num))
    have hq : initQuot c p0 p1 = some (1000000 * 2 ^ 64 / k) := by
      unfold initQuot
      rw [if_pos hm]
      simp only [knownQuot, hk, if_neg hkne, h128, Nat.mod_eq_of_lt hlt]
    rw [initFrom_eq, hq] at hs
    cases hs
    exact Nat.div_pos h2 (by omega)
  | sampled c p0 p1 s hm hpos hlt hs =>
    have hq : initQuot c p0 p1 =
        some (sub64 p1.ns_ p0.ns_ * 2 ^ 64 / sub64 p1.cycles_ p0.cycles_) := by
      unfold initQuot
      rw [if_neg (by omega), scaledQuot_of_lt hlt (sub64_lt _ _)]
    rw [initFrom_eq, hq] at hs
    cases hs
    exact quot_pos_of_lt hpos (by omega) (sub64_lt _ _)
  | recal c p s _ hcond hs ih =>
    rw [recalibrateAt_eq] at hs
    by_cases hb : c.mhz_.man = 0 ∧ nsDiff c p < 50000000
    · obtain ⟨hpos, hlt⟩ := hcond hb.1 hb.2
      rw [if_pos hb, scaledQuot_of_lt hlt (sub64_lt _ _)] at hs
      cases hs
      exact quot_pos_of_lt hpos (by omega) (sub64_lt _ _)
    · rw [if_neg hb] at hs
      cases hs
      exact ih

/-- Witness of C8: a two-sample `init` followed by a recomputing `recalibrate`, and an
`init` at 2000 MHz. -/
theorem multiplier_pos_witness :
    0 < (⟨5534023222112865484, 1, ⟨0, 0⟩, {}, 0, 0⟩ : State).scaled_ns_per_cycle_ ∧
    0 < (⟨2 ^ 63, 2, ⟨5, 7⟩, ⟨2000, 0⟩, 0, 0⟩ : State).scaled_ns_per_cycle_ :=
  ⟨multiplier_pos _
    (PosRun.recal ⟨2 ^ 62, 0, ⟨0, 0⟩, {}, 0, 0⟩ ⟨12, 40⟩ _
      (PosRun.sampled {} ⟨0, 0⟩ ⟨1, 4⟩ _ (by decide) (by decide) (by decide) (by decide))
      (by decide) (by decide)),
   multiplier_pos _
    (PosRun.known (setMHz {} ⟨2000, 0⟩) ⟨5, 7⟩ {} _ 2000000 (by decide) (by decide) (by decide)
      (by decide) (by decide))⟩

/-- Claim C9 (two-sample calibration accuracy). With no known frequency, a 64-bit ns delta
of 1_000_000 and a 64-bit cycle delta of 3_000_000, `init` completes and stores
`floor(2^64 / 3)`; `cyclesToNs(10^18)` is 333333333333333333, so that
`10^18 / 3.003 ≤ cyclesToNs(10^18) ≤ 10^18 / 2.997` and the exact quotient
`10^18 / cyclesToNs(10^18)` is within 0.003 of 3; and `cyclesToNs(3 * n)` is `n` or
`n - 1` for every `3 * n < 2^64`. -/
theorem two_sample_accuracy (c : State) (p0 p1 : SyncPoint) (h0 : c.mhz_.man = 0)
    (hns : sub64 p1.ns_ p0.ns_ = 1000000) (hcy : sub64 p1.cycles_ p0.cycles_ = 3000000) :
    ∃ s, initFrom c p0 p1 = some s ∧
      s.scaled_ns_per_cycle_ = 6148914691236517205 ∧
      cyclesToNs s (10 ^ 18) = 333333333333333333 ∧
      10 ^ 21 ≤ 3003 * cyclesToNs s (10 ^ 18) ∧ 2997 * cyclesToNs s (10 ^ 18) ≤ 10 ^ 21 ∧
      |(10 ^ 18 : ℚ) / (cyclesToNs s (10 ^ 18) : ℚ) - 3| ≤ 3 / 1000 ∧
      ∀ n, 3 * n < 2 ^ 64 → cyclesToNs s (3 * n) = n ∨ cyclesToNs s (3 * n) + 1 = n := by
  have hi : initQuot c p0 p1 = some 6148914691236517205 := by
    unfold initQuot
    rw [if_neg (by omega), hns, hcy]
    decide
  have hx : ∀ cc : State, ∀ p : SyncPoint,
      cyclesToNs (anchored cc 6148914691236517205 p) (10 ^ 18) = 333333333333333333 := by
    intro cc p
    rw [cyclesToNs_anchored]
    norm_num
  refine ⟨_, by rw [initFrom_eq, hi]; rfl, rfl, hx _ _, ?_, ?_, ?_, ?_⟩
  · rw [hx]; norm_num
  · rw [hx]; norm_num
  · rw [hx]; norm_num [abs_le]
  · intro n hn
    have h := mul_scaled_quot 3 n 1 (by norm_num) hn
    have e : (1 * 2 ^ 64 / 3 : Nat) = 6148914691236517205 := by norm_num
    rw [e, Nat.one_mul] at h
    rw [cyclesToNs_eq _ _ hn (by show 6148914691236517205 < 2 ^ 64; norm_num)]
    exact h

/-- Witness of C9: samples (5000, 7000) and (1005000, 3007000). -/
theorem two_sample_accuracy_witness :
    ∃ s, initFrom {} ⟨5000, 7000⟩ ⟨1005000, 3007000⟩ = some s ∧
      s.scaled_ns_per_cycle_ = 6148914691236517205 ∧
      cyclesToNs s (10 ^ 18) = 333333333333333333 ∧
      10 ^ 21 ≤ 3003 * cyclesToNs s (10 ^ 18) ∧ 2997 * cyclesToNs s (10 ^ 18) ≤ 10 ^ 21 ∧
      |(10 ^ 18 : ℚ) / (cyclesToNs s (10 ^ 18) : ℚ) - 3| ≤ 3 / 1000 ∧
      ∀ n, 3 * n < 2 ^ 64 → cyclesToNs s (3 * n) = n ∨ cyclesToNs s (3 * n) + 1 = n :=
  two_sample_accuracy {} ⟨5000, 7000⟩ ⟨1005000, 3007000⟩ (by decide) (by decide) (by decide)

/-- Claim C10 (zero law). In every state, whatever the multiplier, `cyclesToNs(0)` is 0,
and `cyclesToEpochNs(0)` is `start_ns_` (a 64-bit value). -/
theorem zero_law (c : State) :
    cyclesToNs c 0 = 0 ∧ (c.start_ns_ < 2 ^ 64 → cyclesToEpochNs c 0 = c.start_ns_) := by
  have h0 : cyclesToNs c 0 = 0 := by
    unfold cyclesToNs
    simp
  refine ⟨h0, fun h => ?_⟩
  unfold cyclesToEpochNs add64
  rw [h0, Nat.add_zero, Nat.mod_eq_of_lt h]

/-- Witness of C10: the freshly constructed state and a calibrated one. -/
theorem zero_law_witness :
    cyclesToNs {} 0 = 0 ∧ cyclesToEpochNs {} 0 = 0 ∧
    cyclesToEpochNs ⟨2 ^ 63, 998, ⟨1000, 4⟩, ⟨2000, 0⟩, 0, 0⟩ 0 = 998 :=
  ⟨(zero_law {}).1, (zero_law {}).2 (by decide),
   (zero_law ⟨2 ^ 63, 998, ⟨1000, 4⟩, ⟨2000, 0⟩, 0, 0⟩).2 (by decide)⟩

/-! ## Further lemmas on the conversion functions -/

theorem cyclesToEpochNs_lt (c : State) (cycles : Nat) : cyclesToEpochNs c cycles < 2 ^ 64 :=
  add64_lt _ _

theorem toInt64_of_lt {x : Nat} (h : x < 2 ^ 63) : toInt64 x = (x : Int) := by
  have h1 : x % 2 ^ 64 = x := Nat.mod_eq_of_lt (by omega)
  unfold toInt64
  rw [h1, if_pos h]

/-- The floor of a sum is the sum of the floors, or one more. -/
theorem div_add_split (a b : Nat) :
    (a + b) / 2 ^ 64 = a / 2 ^ 64 + b / 2 ^ 64 ∨ (a + b) / 2 ^ 64 = a / 2 ^ 64 + b / 2 ^ 64 + 1 := by
  omega

/-- With the multiplier `dn * 2^64 / dc` (`dn < dc`), the conversions of two counter
values `dc` apart differ by `dn` or by `dn - 1`. -/
theorem scaled_interval (c0 dc dn : Nat) (hdc : dc < 2 ^ 64) (hlt : dn < dc) :
    (c0 + dc) * (dn * 2 ^ 64 / dc) / 2 ^ 64 = c0 * (dn * 2 ^ 64 / dc) / 2 ^ 64 + dn ∨
    (c0 + dc) * (dn * 2 ^ 64 / dc) / 2 ^ 64 + 1 = c0 * (dn * 2 ^ 64 / dc) / 2 ^ 64 + dn := by
  have hpos : 0 < dc := by omega
  have hdm := Nat.div_add_mod (dn * 2 ^ 64) dc
  have hrem : dn * 2 ^ 64 % dc < 2 ^ 64 := lt_trans (Nat.mod_lt _ hpos) hdc
  have e : (c0 + dc) * (dn * 2 ^ 64 / dc) =
      c0 * (dn * 2 ^ 64 / dc) + dc * (dn * 2 ^ 64 / dc) := by ring
  rw [e]
  generalize c0 * (dn * 2 ^ 64 / dc) = A
  generalize dc * (dn * 2 ^ 64 / dc) = B at hdm
  generalize dn * 2 ^ 64 % dc = R at hdm hrem
  omega

/-! ## Double rounding of the latency threshold -/

theorem lt_two_pow_bitLenAux (fuel : Nat) : ∀ x, x ≤ fuel → x < 2 ^ bitLenAux fuel x := by
  induction fuel with
  | zero =>
    intro x hx
    have : x = 0 := by omega
    subst this
    simp [bitLenAux]
  | succ f ih =>
    intro x hx
    unfold bitLenAux
    split
    · rename_i h0
      rw [h0]
      norm_num
    · rename_i h0
      have h := ih (x / 2) (by omega)
      rw [pow_succ]
      generalize 2 ^ bitLenAux f (x / 2) = B at h ⊢
      omega

theorem lt_two_pow_bitLen (x : Nat) : x < 2 ^ bitLen x :=
  lt_two_pow_bitLenAux x x (le_refl x)

theorem roundToDouble_form (x : Nat) (hx : 2 ^ 53 ≤ x) :
    ∃ q, roundToDouble x = q * 2 ^ (bitLen x - 53) ∧ q ≤ x / 2 ^ (bitLen x - 53) + 1 := by
  unfold roundToDouble
  rw [if_neg (by omega)]
  simp only []
  split
  · exact ⟨_, rfl, le_refl _⟩
  · exact ⟨_, rfl, Nat.le_succ _⟩

theorem goodLatency_lt {c : State} {g : Nat} (hg : goodLatency c = some g) :
    g < 2 ^ 64 - 1 := by
  unfold goodLatency at hg
  simp only [] at hg
  split at hg
  swap
  · exact absurd hg (by simp)
  rename_i hv
  cases hg
  revert hv
  generalize 3 * roundToDouble c.clock_gettime_latency_ = y
  intro hv
  by_cases hy : y < 2 ^ 53
  · rw [roundToDouble_of_lt hy]
    omega
  · have hy2 : 2 ^ 53 ≤ y := by omega
    obtain ⟨q, hq, hle⟩ := roundToDouble_form y hy2
    have hb := lt_two_pow_bitLen y
    have h54 : 54 ≤ bitLen y := by
      by_contra hcon
      have h1 : bitLen y ≤ 53 := by omega
      have h2 : 2 ^ bitLen y ≤ 2 ^ 53 := Nat.pow_le_pow_right (by norm_num) h1
      omega
    rw [hq] at hv ⊢
    by_cases h55 : 55 ≤ bitLen y
    · obtain ⟨e, he⟩ : ∃ e, bitLen y - 53 = e + 2 := ⟨bitLen y - 55, by omega⟩
      rw [he, pow_succ, pow_succ] at hv ⊢
      generalize 2 ^ e = E at hv ⊢
      have : q * (E * 2 * 2) / 2 = 2 * (q * E) := by
        rw [show q * (E * 2 * 2) = (2 * (q * E)) * 2 by ring]
        exact Nat.mul_div_cancel _ (by norm_num)
      rw [this] at hv ⊢
      generalize q * E = z at hv ⊢
      omega
    · have he : bitLen y = 54 := by omega
      rw [he] at hb hle ⊢
      norm_num at hle ⊢
      omega

theorem goodLatency_eq (c : State) (h : 3 * c.clock_gettime_latency_ < 2 ^ 53) :
    goodLatency c = some (3 * c.clock_gettime_latency_ / 2) := by
  have hL : c.clock_gettime_latency_ < 2 ^ 53 := by omega
  unfold goodLatency
  rw [roundToDouble_of_lt hL, roundToDouble_of_lt h]
  simp only []
  rw [if_pos (by omega)]

/-! ## The loop of `getSyncTimePoint` -/

theorem syncIters_le (good : Nat) (trials : Nat → Trial) :
    ∀ k i m, syncIters good trials k i m ≤ k := by
  intro k
  induction k with
  | zero => intro i m; simp [syncIters]
  | succ k ih =>
    intro i m
    unfold syncIters
    simp only []
    split
    · have := ih (i + 1) m
      omega
    · split
      · omega
      · have := ih (i + 1) (sub64 (trials i).t2 (trials i).t1)
        omega

theorem syncIters_pos (good : Nat) (trials : Nat → Trial) (k i m : Nat) :
    0 < syncIters good trials (k + 1) i m := by
  unfold syncIters
  simp only []
  split
  · omega
  · split <;> omega

/-- The stop rule: while the running minimum is above the threshold, every executed trial
but the last is wider than the threshold, and a loop that ends early ends on a trial
within the threshold. -/
theorem syncIters_stop (good : Nat) (trials : Nat → Trial) :
    ∀ k i m, good < m →
      (∀ j, i ≤ j → j + 1 < i + syncIters good trials k i m → good < width trials j) ∧
      (syncIters good trials k i m < k →
        width trials (i + syncIters good trials k i m - 1) ≤ good) := by
  intro k
  induction k with
  | zero =>
    intro i m _
    simp only [syncIters]
    exact ⟨fun j h1 h2 => absurd h2 (by omega), fun h => absurd h (by omega)⟩
  | succ k ih =>
    intro i m hm
    unfold syncIters
    simp only []
    split
    · rename_i hle
      obtain ⟨h1, h2⟩ := ih (i + 1) m hm
      constructor
      · intro j hij hj
        rcases Nat.eq_or_lt_of_le hij with rfl | hlt
        · show good < sub64 (trials i).t2 (trials i).t1
          omega
        · exact h1 j (by omega) (by omega)
      · intro hk
        have := h2 (by omega)
        have e : i + (syncIters good trials k (i + 1) m + 1) - 1 =
            i + 1 + syncIters good trials k (i + 1) m - 1 := by omega
        rw [e]
        exact this
    · split
      · rename_i hgood
        constructor
        · intro j hij hj
          omega
        · intro _
          show sub64 (trials (i + 1 - 1)).t2 (trials (i + 1 - 1)).t1 ≤ good
          rw [Nat.add_sub_cancel]
          exact hgood
      · rename_i hnle hgood
        obtain ⟨h1, h2⟩ := ih (i + 1) (sub64 (trials i).t2 (trials i).t1) (by omega)
        constructor
        · intro j hij hj
          rcases Nat.eq_or_lt_of_le hij with rfl | hlt
          · show good < sub64 (trials i).t2 (trials i).t1
            omega
          · exact h1 j (by omega) (by omega)
        · intro hk
          have := h2 (by omega)
          have e : i + (syncIters good trials k (i + 1) (sub64 (trials i).t2 (trials i).t1) + 1)
              - 1 = i + 1 + syncIters good trials k (i + 1) (sub64 (trials i).t2 (trials i).t1)
                - 1 := by omega
          rw [e]
          exact this

/-- The selection: the loop returns `ret` when no executed trial is narrower than
`min_cycles`, and otherwise the sync point of the first narrowest executed trial. -/
theorem syncLoop_selects (c : State) (good : Nat) (trials : Nat → Trial) :
    ∀ k i m ret,
      ((∀ j, i ≤ j → j < i + syncIters good trials k i m → m ≤ width trials j) ∧
        syncLoop c good trials k i m ret = ret) ∨
      ∃ j, i ≤ j ∧ j < i + syncIters good trials k i m ∧ width trials j < m ∧
        (∀ l, i ≤ l → l < i + syncIters good trials k i m → width trials j ≤ width trials l) ∧
        (∀ l, i ≤ l → l < j → width trials j < width trials l) ∧
        syncLoop c good trials k i m ret = syncOf c (trials j) := by
  intro k
  induction k with
  | zero =>
    intro i m ret
    left
    simp only [syncIters, syncLoop]
    exact ⟨fun j h1 h2 => absurd h2 (by omega), trivial⟩
  | succ k ih =>
    intro i m ret
    unfold syncIters syncLoop
    simp only []
    split
    · rename_i hle
      rcases ih (i + 1) m ret with ⟨hall, hret⟩ | ⟨j, hj1, hj2, hj3, hj4, hj5, hj6⟩
      · left
        refine ⟨?_, hret⟩
        intro j hij hj
        rcases Nat.eq_or_lt_of_le hij with rfl | hlt
        · exact hle
        · exact hall j (by omega) (by omega)
      · right
        refine ⟨j, by omega, by omega, hj3, ?_, ?_, hj6⟩
        · intro l hil hl
          rcases Nat.eq_or_lt_of_le hil with rfl | hlt
          · show width trials j ≤ sub64 (trials i).t2 (trials i).t1
            omega
          · exact hj4 l (by omega) (by omega)
        · intro l hil hl
          rcases Nat.eq_or_lt_of_le hil with rfl | hlt
          · show width trials j < sub64 (trials i).t2 (trials i).t1
            omega
          · exact hj5 l (by omega) hl
    · rename_i hnle
      have hwi : width trials i < m := by
        show sub64 (trials i).t2 (trials i).t1 < m
        omega
      split
      · right
        refine ⟨i, le_refl _, by omega, hwi, ?_, ?_, rfl⟩
        · intro l hil hl
          have : l = i := by omega
          rw [this]
        · intro l hil hl
          omega
      · rcases ih (i + 1) (sub64 (trials i).t2 (trials i).t1)
            { ns_ := ((trials i).tv_sec * 1000000000 + (trials i).tv_nsec) % 2 ^ 64,
              cycles_ := add64 (trials i).t1 c.rdtsc_latency_ } with
          ⟨hall, hret⟩ | ⟨j, hj1, hj2, hj3, hj4, hj5, hj6⟩
        · right
          refine ⟨i, le_refl _, by omega, hwi, ?_, ?_, hret⟩
          · intro l hil hl
            rcases Nat.eq_or_lt_of_le hil with rfl | hlt
            · exact le_refl _
            · exact hall l (by omega) (by omega)
          · intro l hil hl
            omega
        · right
          have hji : width trials j < width trials i := hj3
          refine ⟨j, by omega, by omega, by omega, ?_, ?_, hj6⟩
          · intro l hil hl
            rcases Nat.eq_or_lt_of_le hil with rfl | hlt
            · omega
            · exact hj4 l (by omega) (by omega)
          · intro l hil hl
            rcases Nat.eq_or_lt_of_le hil with rfl | hlt
            · exact hji
            · exact hj5 l (by omega) hl

theorem syncIters_succ (good : Nat) (trials : Nat → Trial) (k i m : Nat) :
    syncIters good trials (k + 1) i m =
      if m ≤ width trials i then syncIters good trials k (i + 1) m + 1
      else if width trials i ≤ good then 1
      else syncIters good trials k (i + 1) (width trials i) + 1 := rfl

theorem syncLoop_succ (c : State) (good : Nat) (trials : Nat → Trial) (k i m : Nat)
    (ret : SyncPoint) :
    syncLoop c good trials (k + 1) i m ret =
      if m ≤ width trials i then syncLoop c good trials k (i + 1) m ret
      else if width trials i ≤ good then syncOf c (trials i)
      else syncLoop c good trials k (i + 1) (width trials i) (syncOf c (trials i)) := rfl

/-- The loop reads only the trials it executes. -/
theorem syncLoop_congr (c : State) (good : Nat) (trials trials2 : Nat → Trial) :
    ∀ k i m ret,
      (∀ j, i ≤ j → j < i + syncIters good trials k i m → trials2 j = trials j) →
      syncLoop c good trials2 k i m ret = syncLoop c good trials k i m ret ∧
      syncIters good trials2 k i m = syncIters good trials k i m := by
  intro k
  induction k with
  | zero =>
    intro i m ret _
    exact ⟨rfl, rfl⟩
  | succ k ih =>
    intro i m ret h
    have hi : trials2 i = trials i :=
      h i (le_refl _) (by have := syncIters_pos good trials k i m; omega)
    have hw : width trials2 i = width trials i := by
      unfold width
      rw [hi]
    rw [syncIters_succ] at h
    rw [syncIters_succ, syncIters_succ, syncLoop_succ, syncLoop_succ, hw, hi]
    by_cases hle : m ≤ width trials i
    · rw [if_pos hle] at h
      simp only [if_pos hle]
      have := ih (i + 1) m ret (fun j h1 h2 => h j (by omega) (by omega))
      exact ⟨this.1, by rw [this.2]⟩
    · rw [if_neg hle] at h
      simp only [if_neg hle]
      by_cases hgood : width trials i ≤ good
      · simp only [if_pos hgood]
        exact ⟨trivial, trivial⟩
      · rw [if_neg hgood] at h
        simp only [if_neg hgood]
        have := ih (i + 1) (width trials i) (syncOf c (trials i))
          (fun j h1 h2 => h j (by omega) (by omega))
        exact ⟨this.1, by rw [this.2]⟩

/-! ## The measuring loops -/

theorem foldl_min_spec (f : Nat → Nat) :
    ∀ (l : List Nat) (a : Nat),
      l.foldl (fun lat i => min lat (f i)) a ≤ a ∧
      (∀ i, i ∈ l → l.foldl (fun lat i => min lat (f i)) a ≤ f i) ∧
      (l.foldl (fun lat i => min lat (f i)) a = a ∨
        ∃ i, i ∈ l ∧ l.foldl (fun lat i => min lat (f i)) a = f i) := by
  intro l
  induction l with
  | nil =>
    intro a
    exact ⟨le_refl _, fun i hi => absurd hi (List.not_mem_nil i), Or.inl rfl⟩
  | cons x xs ih =>
    intro a
    obtain ⟨h1, h2, h3⟩ := ih (min a (f x))
    simp only [List.foldl_cons]
    refine ⟨le_trans h1 (Nat.min_le_left _ _), ?_, ?_⟩
    · intro i hi
      rcases List.mem_cons.mp hi with rfl | hmem
      · exact le_trans h1 (Nat.min_le_right _ _)
      · exact h2 i hmem
    · rcases h3 with heq | ⟨i, hi, heq⟩
      · rcases Nat.le_total a (f x) with hax | hxa
        · left
          rw [heq, Nat.min_eq_left hax]
        · right
          exact ⟨x, List.mem_cons_self _ _, by rw [heq, Nat.min_eq_right hxa]⟩
      · right
        exact ⟨i, List.mem_cons_of_mem _ hi, heq⟩

theorem minDelta_spec (reads : Nat → TscPair) :
    (∀ i, i < 100 → minDelta reads ≤ delta reads i) ∧
    ∃ i, i < 100 ∧ minDelta reads = delta reads i := by
  obtain ⟨h1, h2, h3⟩ := foldl_min_spec (delta reads) (List.range 100) (2 ^ 64 - 1)
  have hm : minDelta reads =
      (List.range 100).foldl (fun lat i => min lat (delta reads i)) (2 ^ 64 - 1) := rfl
  rw [← hm] at h1 h2 h3
  refine ⟨fun i hi => h2 i (List.mem_range.mpr hi), ?_⟩
  rcases h3 with heq | ⟨i, hi, heq⟩
  · refine ⟨0, by norm_num, ?_⟩
    have h0 := h2 0 (List.mem_range.mpr (by norm_num))
    have hlt : delta reads 0 < 2 ^ 64 := sub64_lt _ _
    omega
  · exact ⟨i, List.mem_range.mp hi, heq⟩

/-! ## The claims, continued -/

/-- Claim C11 (timespec decomposition). In every state and for every cycle count,
`cyclesToTimeSpec` returns signed fields with `0 ≤ tv_nsec < 1_000_000_000`,
`0 ≤ tv_sec`, and `tv_sec * 1_000_000_000 + tv_nsec` equal to `cyclesToEpochNs`. -/
theorem cyclesToTimeSpec_decomposition (c : State) (cycles : Nat) :
    0 ≤ (cyclesToTimeSpec c cycles).tv_nsec ∧
    (cyclesToTimeSpec c cycles).tv_nsec < 1000000000 ∧
    0 ≤ (cyclesToTimeSpec c cycles).tv_sec ∧
    (cyclesToTimeSpec c cycles).tv_sec * 1000000000 + (cyclesToTimeSpec c cycles).tv_nsec =
      (cyclesToEpochNs c cycles : Int) := by
  have hlt := cyclesToEpochNs_lt c cycles
  have hs : cyclesToEpochNs c cycles / 1000000000 < 2 ^ 63 := by omega
  have hn : cyclesToEpochNs c cycles % 1000000000 < 2 ^ 63 := by omega
  show 0 ≤ toInt64 (cyclesToEpochNs c cycles % 1000000000) ∧
    toInt64 (cyclesToEpochNs c cycles % 1000000000) < 1000000000 ∧
    0 ≤ toInt64 (cyclesToEpochNs c cycles / 1000000000) ∧
    toInt64 (cyclesToEpochNs c cycles / 1000000000) * 1000000000 +
      toInt64 (cyclesToEpochNs c cycles % 1000000000) = (cyclesToEpochNs c cycles : Int)
  rw [toInt64_of_lt hs, toInt64_of_lt hn]
  omega

/-- Witness of C11: start 1_500_000_000 ns, multiplier `2^63`, 4 cycles. -/
theorem cyclesToTimeSpec_decomposition_witness :
    cyclesToTimeSpec ⟨2 ^ 63, 1500000000, ⟨0, 0⟩, {}, 0, 0⟩ 4 = ⟨1, 500000002⟩ ∧
    (cyclesToTimeSpec ⟨2 ^ 63, 1500000000, ⟨0, 0⟩, {}, 0, 0⟩ 4).tv_sec * 1000000000 +
      (cyclesToTimeSpec ⟨2 ^ 63, 1500000000, ⟨0, 0⟩, {}, 0, 0⟩ 4).tv_nsec =
      (cyclesToEpochNs ⟨2 ^ 63, 1500000000, ⟨0, 0⟩, {}, 0, 0⟩ 4 : Int) :=
  ⟨by decide,
    (cyclesToTimeSpec_decomposition ⟨2 ^ 63, 1500000000, ⟨0, 0⟩, {}, 0, 0⟩ 4).2.2.2⟩

/-- Claim C12 (backward steps are classified by magnitude). When the true difference
between `expected_ns = cyclesToEpochNs(P_now.cycles)` and the 64-bit `P_now.ns` has
magnitude below `2^63`, the `ns_diff` that `recalibrate` computes is its mathematical
absolute value; a reading `q` on the other side of `expected_ns` at the same distance
gets the same `ns_diff`, hence the same decision to keep or recompute the multiplier. -/
theorem nsDiff_abs (c : State) (p : SyncPoint) (hp : p.ns_ < 2 ^ 64)
    (h : |(cyclesToEpochNs c p.cycles_ : Int) - (p.ns_ : Int)| < 2 ^ 63) :
    (nsDiff c p : Int) = |(cyclesToEpochNs c p.cycles_ : Int) - (p.ns_ : Int)| ∧
    ∀ q : SyncPoint, q.cycles_ = p.cycles_ → q.ns_ < 2 ^ 64 →
      (q.ns_ : Int) - (cyclesToEpochNs c p.cycles_ : Int) =
        (cyclesToEpochNs c p.cycles_ : Int) - (p.ns_ : Int) →
      nsDiff c q = nsDiff c p ∧
      ((c.mhz_.man = 0 ∧ nsDiff c q < 50000000) ↔ (c.mhz_.man = 0 ∧ nsDiff c p < 50000000)) := by
  have he := cyclesToEpochNs_lt c p.cycles_
  have key : ∀ r : SyncPoint, r.cycles_ = p.cycles_ → r.ns_ < 2 ^ 64 →
      |(cyclesToEpochNs c p.cycles_ : Int) - (r.ns_ : Int)| < 2 ^ 63 →
      (nsDiff c r : Int) = |(cyclesToEpochNs c p.cycles_ : Int) - (r.ns_ : Int)| := by
    intro r hc hr hlt
    unfold nsDiff sub64
    rw [hc]
    generalize cyclesToEpochNs c p.cycles_ = e at he hlt ⊢
    rw [abs_lt] at hlt
    simp only []
    split <;> rename_i hd <;> rcases abs_cases ((e : Int) - (r.ns_ : Int)) with ⟨h1, _⟩ | ⟨h1, _⟩ <;>
      rw [h1] <;> omega
  refine ⟨key p rfl hp h, ?_⟩
  intro q hqc hq hmir
  have hq' : |(cyclesToEpochNs c p.cycles_ : Int) - (q.ns_ : Int)| < 2 ^ 63 := by
    rw [abs_lt] at h ⊢
    omega
  have e1 := key p rfl hp h
  have e2 := key q hqc hq hq'
  have habs : |(cyclesToEpochNs c p.cycles_ : Int) - (q.ns_ : Int)| =
      |(cyclesToEpochNs c p.cycles_ : Int) - (p.ns_ : Int)| := by
    have : (cyclesToEpochNs c p.cycles_ : Int) - (q.ns_ : Int) =
        -((cyclesToEpochNs c p.cycles_ : Int) - (p.ns_ : Int)) := by omega
    rw [this, abs_neg]
  have heq : nsDiff c q = nsDiff c p := by
    have : (nsDiff c q : Int) = (nsDiff c p : Int) := by rw [e1, e2, habs]
    exact_mod_cast this
  exact ⟨heq, by rw [heq]⟩

/-- Witness of C12: `expected_ns = 1000`, readings 800 and 1200. -/
theorem nsDiff_abs_witness :
    (nsDiff ⟨2 ^ 63, 1000, ⟨0, 0⟩, {}, 0, 0⟩ ⟨800, 0⟩ : Int) = |(1000 : Int) - 800| ∧
    nsDiff ⟨2 ^ 63, 1000, ⟨0, 0⟩, {}, 0, 0⟩ ⟨1200, 0⟩ =
      nsDiff ⟨2 ^ 63, 1000, ⟨0, 0⟩, {}, 0, 0⟩ ⟨800, 0⟩ := by
  have h := nsDiff_abs ⟨2 ^ 63, 1000, ⟨0, 0⟩, {}, 0, 0⟩ ⟨800, 0⟩ (by decide)
    (by rw [abs_lt]; constructor <;> decide)
  exact ⟨h.1, (h.2 ⟨1200, 0⟩ rfl (by decide) (by decide)).1⟩

/-- Counterexample to C13 as stated. Ten trials with `t1 = 1`, `t2 = 0` have the width
`2^64 - 1`, the initial value of `min_cycles`: none is kept and the result is (0, 0), not
the sync point (5, 1) of the first of them. With `clock_gettime_latency_ =
3002399751580333` the double product rounds `good_latency` up to 4503599627370500, so a
first trial of that width, wider than 1.5 times the latency, stops the loop before the
narrower second trial. -/
theorem getSyncTimePoint_sentinel_counterexample :
    width (fun _ => ⟨1, 0, 5, 0⟩) 0 = 2 ^ 64 - 1 ∧
    trialsExecuted {} (fun _ => ⟨1, 0, 5, 0⟩) = some 10 ∧
    getSyncTimePoint {} (fun _ => ⟨1, 0, 5, 0⟩) = some ⟨0, 0⟩ ∧
    syncOf {} ⟨1, 0, 5, 0⟩ = ⟨5, 1⟩ ∧
    goodLatency ⟨0, 0, {}, {}, 0, 3002399751580333⟩ = some 4503599627370500 ∧
    3 * 3002399751580333 < 2 * 4503599627370500 ∧
    trialsExecuted ⟨0, 0, {}, {}, 0, 3002399751580333⟩
      (fun i => if i = 0 then ⟨0, 0, 5, 4503599627370500⟩ else ⟨0, 0, 6, 10⟩) = some 1 ∧
    getSyncTimePoint ⟨0, 0, {}, {}, 0, 3002399751580333⟩
      (fun i => if i = 0 then ⟨0, 0, 5, 4503599627370500⟩ else ⟨0, 0, 6, 10⟩) =
        some ⟨5, 0⟩ := by
  decide

/-- Claim C13, amended (sampler selection). In every state in which the conversion of
`clock_gettime_latency_ * 1.5` to `uint64_t` is defined, with value `g` (`good_latency`;
it is `floor(1.5 * clock_gettime_latency_)` whenever `3 * clock_gettime_latency_ < 2^53`),
`getSyncTimePoint` returns a sync point `p` after executing `n` trials, `1 ≤ n ≤ 10`,
and reads no others; every executed trial but the last is wider than `g`, and when
fewer than 10 are executed the last one is within `g`. When some executed trial has a
width below `2^64 - 1`, `p` is the sync point of the narrowest executed trial, the
earliest on ties: its wall-clock reading and `t1 + rdtsc_latency_`. When every executed
trial has the width `2^64 - 1`, `p` is the default sync point (0, 0). -/
theorem getSyncTimePoint_selects (c : State) (trials : Nat → Trial) (g : Nat)
    (hg : goodLatency c = some g) :
    ∃ n p, trialsExecuted c trials = some n ∧ getSyncTimePoint c trials = some p ∧
      1 ≤ n ∧ n ≤ 10 ∧
      (∀ j, j + 1 < n → g < width trials j) ∧
      (n < 10 → width trials (n - 1) ≤ g) ∧
      (3 * c.clock_gettime_latency_ < 2 ^ 53 → g = 3 * c.clock_gettime_latency_ / 2) ∧
      (∀ trials2 : Nat → Trial, (∀ j, j < n → trials2 j = trials j) →
        getSyncTimePoint c trials2 = some p) ∧
      ((∃ i, i < n ∧ width trials i < 2 ^ 64 - 1) →
        ∃ j, j < n ∧
          (∀ l, l < n → width trials j ≤ width trials l) ∧
          (∀ l, l < j → width trials j < width trials l) ∧
          p = syncOf c (trials j)) ∧
      ((∀ i, i < n → width trials i = 2 ^ 64 - 1) → p = { ns_ := 0, cycles_ := 0 }) := by
  have hstop := syncIters_stop g trials 10 0 (2 ^ 64 - 1) (goodLatency_lt hg)
  have hsel := syncLoop_selects c g trials 10 0 (2 ^ 64 - 1) {}
  have hcongr := syncLoop_congr c g trials
  have hpos := syncIters_pos g trials 9 0 (2 ^ 64 - 1)
  have hle := syncIters_le g trials 10 0 (2 ^ 64 - 1)
  simp only [Nat.zero_add] at hstop hsel
  refine ⟨syncIters g trials 10 0 (2 ^ 64 - 1), syncLoop c g trials 10 0 (2 ^ 64 - 1) {},
    by unfold trialsExecuted; rw [hg], getSyncTimePoint_eq c trials g hg, hpos, hle,
    fun j hj => hstop.1 j (Nat.zero_le _) hj, hstop.2, ?_, ?_, ?_, ?_⟩
  · intro h3
    have := goodLatency_eq c h3
    rw [hg] at this
    exact Option.some.inj this
  · intro trials2 h
    rw [getSyncTimePoint_eq c trials2 g hg]
    exact congrArg some (hcongr trials2 10 0 (2 ^ 64 - 1) {} (fun j _ hj => h j (by omega))).1
  · rintro ⟨i, hi, hw⟩
    rcases hsel with ⟨hall, _⟩ | ⟨j, _, hj2, _, hj4, hj5, hj6⟩
    · have := hall i (Nat.zero_le _) hi
      omega
    · exact ⟨j, hj2, fun l hl => hj4 l (Nat.zero_le _) hl,
        fun l hl => hj5 l (Nat.zero_le _) hl, hj6⟩
  · intro hall
    rcases hsel with ⟨_, hret⟩ | ⟨j, _, hj2, hj3, _, _, _⟩
    · exact hret
    · have := hall j hj2
      omega

/-- Witness of C13: three trials of widths 60, 40, 30 and a threshold of 30. -/
theorem getSyncTimePoint_selects_witness :
    goodLatency ⟨0, 0, {}, {}, 7, 20⟩ = some 30 ∧
    ∃ n p, trialsExecuted ⟨0, 0, {}, {}, 7, 20⟩ sampleTrials = some n ∧
      getSyncTimePoint ⟨0, 0, {}, {}, 7, 20⟩ sampleTrials = some p ∧
      1 ≤ n ∧ n ≤ 10 ∧
      (∀ j, j + 1 < n → 30 < width sampleTrials j) ∧
      (n < 10 → width sampleTrials (n - 1) ≤ 30) ∧
      (3 * 20 < 2 ^ 53 → 30 = 3 * 20 / 2) ∧
      (∀ trials2 : Nat → Trial, (∀ j, j < n → trials2 j = sampleTrials j) →
        getSyncTimePoint ⟨0, 0, {}, {}, 7, 20⟩ trials2 = some p) ∧
      ((∃ i, i < n ∧ width sampleTrials i < 2 ^ 64 - 1) →
        ∃ j, j < n ∧
          (∀ l, l < n → width sampleTrials j ≤ width sampleTrials l) ∧
          (∀ l, l < j → width sampleTrials j < width sampleTrials l) ∧
          p = syncOf ⟨0, 0, {}, {}, 7, 20⟩ (sampleTrials j)) ∧
      ((∀ i, i < n → width sampleTrials i = 2 ^ 64 - 1) → p = { ns_ := 0, cycles_ := 0 }) :=
  ⟨by decide, getSyncTimePoint_selects ⟨0, 0, {}, {}, 7, 20⟩ sampleTrials 30 (by decide)⟩

/-- A sample run of the sampler: three trials are executed and the third, the narrowest,
is returned. -/
theorem getSyncTimePoint_sample_run :
    trialsExecuted ⟨0, 0, {}, {}, 7, 20⟩ sampleTrials = some 3 ∧
    getSyncTimePoint ⟨0, 0, {}, {}, 7, 20⟩ sampleTrials = some ⟨3000, 307⟩ := by
  decide

/-- Counterexample to C14 as stated: with every pair delta 30 and every bracket width 20
the difference `20 - 30` is negative, and `clock_gettime_latency_` is set to
`2^64 - 10`. -/
theorem measureCallLatencies_wrap_counterexample :
    minDelta (fun _ => ⟨0, 30⟩) = 30 ∧ minDelta (fun _ => ⟨0, 20⟩) = 20 ∧
    (measureCallLatencies {} (fun _ => ⟨0, 30⟩) (fun _ => ⟨0, 20⟩)).rdtsc_latency_ = 30 ∧
    (measureCallLatencies {} (fun _ => ⟨0, 30⟩) (fun _ => ⟨0, 20⟩)).clock_gettime_latency_ =
      18446744073709551606 ∧
    ((20 : Int) - 30 < 0) := by
  decide

/-- Claim C14, amended (latency sanity). `measureCallLatencies` sets `rdtsc_latency_` to
the minimum of the 100 pair deltas and `clock_gettime_latency_` to the 64-bit difference
(minimum of the 100 bracket widths) minus that minimum: the true difference when the
bracket minimum is at least the pair minimum, and `2^64` minus the shortfall
otherwise. -/
theorem measureCallLatencies_spec (c : State) (pairs brackets : Nat → TscPair) :
    (measureCallLatencies c pairs brackets).rdtsc_latency_ = minDelta pairs ∧
    (∀ i, i < 100 → minDelta pairs ≤ delta pairs i) ∧
    (∃ i, i < 100 ∧ minDelta pairs = delta pairs i) ∧
    (∀ i, i < 100 → minDelta brackets ≤ delta brackets i) ∧
    (∃ i, i < 100 ∧ minDelta brackets = delta brackets i) ∧
    (measureCallLatencies c pairs brackets).clock_gettime_latency_ =
      (minDelta brackets + 2 ^ 64 - minDelta pairs) % 2 ^ 64 ∧
    (minDelta pairs ≤ minDelta brackets →
      (measureCallLatencies c pairs brackets).clock_gettime_latency_ =
        minDelta brackets - minDelta pairs) ∧
    (minDelta brackets < minDelta pairs →
      (measureCallLatencies c pairs brackets).clock_gettime_latency_ =
        2 ^ 64 - (minDelta pairs - minDelta brackets)) := by
  obtain ⟨p1, i, hi, p2⟩ := minDelta_spec pairs
  obtain ⟨b1, j, hj, b2⟩ := minDelta_spec brackets
  have hp : minDelta pairs < 2 ^ 64 := by
    rw [p2]
    exact sub64_lt _ _
  have hb : minDelta brackets < 2 ^ 64 := by
    rw [b2]
    exact sub64_lt _ _
  have e1 : (measureCallLatencies c pairs brackets).rdtsc_latency_ = minDelta pairs := by
    unfold measureCallLatencies
    rfl
  have e2 : (measureCallLatencies c pairs brackets).clock_gettime_latency_ =
      (minDelta brackets + 2 ^ 64 - minDelta pairs) % 2 ^ 64 := by
    unfold measureCallLatencies
    rfl
  refine ⟨e1, p1, ⟨i, hi, p2⟩, b1, ⟨j, hj, b2⟩, e2, ?_, ?_⟩
  · intro h
    rw [e2]
    omega
  · intro h
    rw [e2]
    omega

/-- Witness of C14: pair deltas 30, bracket widths 90. -/
theorem measureCallLatencies_spec_witness :
    (measureCallLatencies {} (fun _ => ⟨100, 130⟩) (fun _ => ⟨100, 190⟩)).rdtsc_latency_ = 30 ∧
    (measureCallLatencies {} (fun _ => ⟨100, 130⟩)
      (fun _ => ⟨100, 190⟩)).clock_gettime_latency_ = 90 - 30 := by
  have h := measureCallLatencies_spec {} (fun _ => ⟨100, 130⟩) (fun _ => ⟨100, 190⟩)
  have hp : minDelta (fun _ => ⟨100, 130⟩) = 30 := by decide
  have hb : minDelta (fun _ => ⟨100, 190⟩) = 90 := by decide
  refine ⟨h.1.trans hp, ?_⟩
  have := h.2.2.2.2.2.2.1 (by rw [hp, hb]; decide)
  rw [hp, hb] at this
  exact this

/-- Claim C15 (exact fixed-point multiplication). For every 64-bit cycle count and every
64-bit multiplier the product is below `2^128`, `cyclesToNs` is
`floor(cycles * multiplier / 2^64)`, that value is below `2^64`, and `cyclesToNs` is
monotone non-decreasing in the cycle count. -/
theorem cyclesToNs_exact (c : State) (cycles : Nat) (hc : cycles < 2 ^ 64)
    (hr : c.scaled_ns_per_cycle_ < 2 ^ 64) :
    cycles * c.scaled_ns_per_cycle_ < 2 ^ 128 ∧
    cyclesToNs c cycles = cycles * c.scaled_ns_per_cycle_ / 2 ^ 64 ∧
    cycles * c.scaled_ns_per_cycle_ / 2 ^ 64 < 2 ^ 64 ∧
    ∀ c2, c2 ≤ cycles → cyclesToNs c c2 ≤ cyclesToNs c cycles := by
  have hlt : cycles * c.scaled_ns_per_cycle_ < 2 ^ 64 * 2 ^ 64 :=
    calc cycles * c.scaled_ns_per_cycle_ ≤ cycles * 2 ^ 64 :=
          Nat.mul_le_mul_left _ (le_of_lt hr)
      _ < 2 ^ 64 * 2 ^ 64 := Nat.mul_lt_mul_of_pos_right hc (by norm_num)
  refine ⟨by calc cycles * c.scaled_ns_per_cycle_ < 2 ^ 64 * 2 ^ 64 := hlt
               _ = 2 ^ 128 := by norm_num,
    cyclesToNs_eq c cycles hc hr, Nat.div_lt_of_lt_mul hlt, ?_⟩
  intro c2 h2
  exact cyclesToNs_mono c hr h2 hc

/-- Witness of C15: multiplier `2^63`, 2_000_000_000 cycles. -/
theorem cyclesToNs_exact_witness :
    2000000000 * 2 ^ 63 < 2 ^ 128 ∧
    cyclesToNs ⟨2 ^ 63, 0, ⟨0, 0⟩, {}, 0, 0⟩ 2000000000 = 2000000000 * 2 ^ 63 / 2 ^ 64 ∧
    2000000000 * 2 ^ 63 / 2 ^ 64 < 2 ^ 64 ∧
    ∀ c2, c2 ≤ 2000000000 →
      cyclesToNs ⟨2 ^ 63, 0, ⟨0, 0⟩, {}, 0, 0⟩ c2 ≤
        cyclesToNs ⟨2 ^ 63, 0, ⟨0, 0⟩, {}, 0, 0⟩ 2000000000 :=
  cyclesToNs_exact ⟨2 ^ 63, 0, ⟨0, 0⟩, {}, 0, 0⟩ 2000000000 (by decide) (by decide)

/-- Counterexample to C16 as stated: `init` on (1000 ns, 0 cycles) and
(2000 ns, 3000 cycles), then a `recalibrate` that captures (3000 ns, 6000 cycles) with
drift 1 ns and recomputes the multiplier; the baseline counter value 0 then converts to
1001 ns, later than the baseline reading 1000. -/
theorem baseline_interpolation_counterexample :
    init {} quietReads quietReads (trialsAt ⟨1000, 0⟩) (trialsAt ⟨2000, 3000⟩) =
      some ⟨6148914691236517205, 1000, ⟨1000, 0⟩, {}, 0, 0⟩ ∧
    nsDiff ⟨6148914691236517205, 1000, ⟨1000, 0⟩, {}, 0, 0⟩ ⟨3000, 6000⟩ = 1 ∧
    recalibrate ⟨6148914691236517205, 1000, ⟨1000, 0⟩, {}, 0, 0⟩ (trialsAt ⟨3000, 6000⟩) =
      some ⟨6148914691236517205, 1001, ⟨1000, 0⟩, {}, 0, 0⟩ ∧
    cyclesToEpochNs ⟨6148914691236517205, 1001, ⟨1000, 0⟩, {}, 0, 0⟩ 0 = 1001 ∧
    (1001 : Nat) ≠ 1000 ∧ (1001 : Nat) ≠ 1000 - 1 := by
  decide

/-- Claim C16, amended (interpolation of the other sample). For 64-bit sync points with
`P0.cycles < P1.cycles` and `0 ≤ P1.ns - P0.ns < P1.cycles - P0.cycles`, and no known
frequency: after `init` on `(P0, P1)`, `cyclesToEpochNs(P1.cycles)` is `P1.ns` or
`P1.ns - 1`; after a `recalibrate` that captures `P1` from the baseline `P0` and
recomputes the multiplier, `cyclesToEpochNs(P1.cycles)` is `P1.ns` and
`cyclesToEpochNs(P0.cycles)` is `P0.ns` or `P0.ns + 1`. -/
theorem second_sample_interpolation (c : State) (p0 p1 : SyncPoint) (h0 : c.mhz_.man = 0)
    (hc : p0.cycles_ < p1.cycles_) (hc1 : p1.cycles_ < 2 ^ 64) (hn : p0.ns_ ≤ p1.ns_)
    (hn1 : p1.ns_ < 2 ^ 64) (hlt : p1.ns_ - p0.ns_ < p1.cycles_ - p0.cycles_) :
    (∃ s, initFrom c p0 p1 = some s ∧
      (cyclesToEpochNs s p1.cycles_ = p1.ns_ ∨ cyclesToEpochNs s p1.cycles_ + 1 = p1.ns_)) ∧
    (c.p_start_ = p0 → nsDiff c p1 < 50000000 →
      ∃ s, recalibrateAt c p1 = some s ∧
        s.scaled_ns_per_cycle_ = (p1.ns_ - p0.ns_) * 2 ^ 64 / (p1.cycles_ - p0.cycles_) ∧
        cyclesToEpochNs s p1.cycles_ = p1.ns_ ∧
        (cyclesToEpochNs s p0.cycles_ = p0.ns_ ∨ cyclesToEpochNs s p0.cycles_ = p0.ns_ + 1)) := by
  have en := sub64_of_le hn hn1
  have ec := sub64_of_le (le_of_lt hc) hc1
  have hdc : p1.cycles_ - p0.cycles_ < 2 ^ 64 := by omega
  have hq : scaledQuot (sub64 p1.ns_ p0.ns_) (sub64 p1.cycles_ p0.cycles_) =
      some ((p1.ns_ - p0.ns_) * 2 ^ 64 / (p1.cycles_ - p0.cycles_)) := by
    rw [en, ec]
    exact scaledQuot_of_lt hlt hdc
  have hr : (p1.ns_ - p0.ns_) * 2 ^ 64 / (p1.cycles_ - p0.cycles_) < 2 ^ 64 :=
    scaledQuot_lt hq
  have hint := scaled_interval p0.cycles_ (p1.cycles_ - p0.cycles_) (p1.ns_ - p0.ns_) hdc hlt
  rw [show p0.cycles_ + (p1.cycles_ - p0.cycles_) = p1.cycles_ by omega] at hint
  have key : ∀ s : State,
      s.scaled_ns_per_cycle_ = (p1.ns_ - p0.ns_) * 2 ^ 64 / (p1.cycles_ - p0.cycles_) →
      (cyclesToNs s p1.cycles_ = cyclesToNs s p0.cycles_ + (p1.ns_ - p0.ns_) ∨
        cyclesToNs s p1.cycles_ + 1 = cyclesToNs s p0.cycles_ + (p1.ns_ - p0.ns_)) ∧
      cyclesToNs s p0.cycles_ ≤ cyclesToNs s p1.cycles_ ∧
      cyclesToNs s p1.cycles_ < 2 ^ 64 := by
    intro s hs
    have hs64 : s.scaled_ns_per_cycle_ < 2 ^ 64 := by rw [hs]; exact hr
    refine ⟨?_, cyclesToNs_mono s hs64 (le_of_lt hc) hc1, cyclesToNs_lt s _⟩
    rw [cyclesToNs_eq s _ hc1 hs64, cyclesToNs_eq s _ (by omega) hs64, hs]
    exact hint
  constructor
  · have hi : initQuot c p0 p1 =
        some ((p1.ns_ - p0.ns_) * 2 ^ 64 / (p1.cycles_ - p0.cycles_)) := by
      unfold initQuot
      rw [if_neg (by omega), hq]
    refine ⟨_, by rw [initFrom_eq, hi]; rfl, ?_⟩
    obtain ⟨k1, k2, k3⟩ := key (anchored { c with p_start_ := p0 }
      ((p1.ns_ - p0.ns_) * 2 ^ 64 / (p1.cycles_ - p0.cycles_)) p0) rfl
    show add64 (sub64 p0.ns_ (cyclesToNs (anchored { c with p_start_ := p0 }
        ((p1.ns_ - p0.ns_) * 2 ^ 64 / (p1.cycles_ - p0.cycles_)) p0) p0.cycles_))
      (cyclesToNs (anchored { c with p_start_ := p0 }
        ((p1.ns_ - p0.ns_) * 2 ^ 64 / (p1.cycles_ - p0.cycles_)) p0) p1.cycles_) = p1.ns_ ∨
      add64 (sub64 p0.ns_ (cyclesToNs (anchored { c with p_start_ := p0 }
        ((p1.ns_ - p0.ns_) * 2 ^ 64 / (p1.cycles_ - p0.cycles_)) p0) p0.cycles_))
      (cyclesToNs (anchored { c with p_start_ := p0 }
        ((p1.ns_ - p0.ns_) * 2 ^ 64 / (p1.cycles_ - p0.cycles_)) p0) p1.cycles_) + 1 = p1.ns_
    generalize cyclesToNs (anchored { c with p_start_ := p0 }
        ((p1.ns_ - p0.ns_) * 2 ^ 64 / (p1.cycles_ - p0.cycles_)) p0) p0.cycles_ = f0 at k1 k2 ⊢
    generalize cyclesToNs (anchored { c with p_start_ := p0 }
        ((p1.ns_ - p0.ns_) * 2 ^ 64 / (p1.cycles_ - p0.cycles_)) p0) p1.cycles_ = f1 at k1 k2 k3 ⊢
    unfold add64 sub64
    omega
  · intro hb hd
    have hq2 : scaledQuot (sub64 p1.ns_ c.p_start_.ns_) (sub64 p1.cycles_ c.p_start_.cycles_) =
        some ((p1.ns_ - p0.ns_) * 2 ^ 64 / (p1.cycles_ - p0.cycles_)) := by
      rw [hb]
      exact hq
    refine ⟨_, by rw [recalibrateAt_eq, if_pos ⟨h0, hd⟩, hq2]; rfl, rfl,
      cyclesToEpochNs_anchored _ _ p1 hn1, ?_⟩
    obtain ⟨k1, k2, k3⟩ := key (anchored c
      ((p1.ns_ - p0.ns_) * 2 ^ 64 / (p1.cycles_ - p0.cycles_)) p1) rfl
    show add64 (sub64 p1.ns_ (cyclesToNs (anchored c
        ((p1.ns_ - p0.ns_) * 2 ^ 64 / (p1.cycles_ - p0.cycles_)) p1) p1.cycles_))
      (cyclesToNs (anchored c
        ((p1.ns_ - p0.ns_) * 2 ^ 64 / (p1.cycles_ - p0.cycles_)) p1) p0.cycles_) = p0.ns_ ∨
      add64 (sub64 p1.ns_ (cyclesToNs (anchored c
        ((p1.ns_ - p0.ns_) * 2 ^ 64 / (p1.cycles_ - p0.cycles_)) p1) p1.cycles_))
      (cyclesToNs (anchored c
        ((p1.ns_ - p0.ns_) * 2 ^ 64 / (p1.cycles_ - p0.cycles_)) p1) p0.cycles_) = p0.ns_ + 1
    generalize cyclesToNs (anchored c
        ((p1.ns_ - p0.ns_) * 2 ^ 64 / (p1.cycles_ - p0.cycles_)) p1) p0.cycles_ = f0 at k1 k2 ⊢
    generalize cyclesToNs (anchored c
        ((p1.ns_ - p0.ns_) * 2 ^ 64 / (p1.cycles_ - p0.cycles_)) p1) p1.cycles_ = f1 at k1 k2 k3 ⊢
    unfold add64 sub64
    omega

/-- Witness of C16: baseline (1000 ns, 0 cycles), second point (2000 ns, 3000 cycles). -/
theorem second_sample_interpolation_witness :
    (∃ s, initFrom ⟨6148914691236517205, 1000, ⟨1000, 0⟩, {}, 0, 0⟩ ⟨1000, 0⟩ ⟨2000, 3000⟩ =
        some s ∧
      (cyclesToEpochNs s 3000 = 2000 ∨ cyclesToEpochNs s 3000 + 1 = 2000)) ∧
    ((⟨6148914691236517205, 1000, ⟨1000, 0⟩, {}, 0, 0⟩ : State).p_start_ = ⟨1000, 0⟩ →
      nsDiff ⟨6148914691236517205, 1000, ⟨1000, 0⟩, {}, 0, 0⟩ ⟨2000, 3000⟩ < 50000000 →
      ∃ s, recalibrateAt ⟨6148914691236517205, 1000, ⟨1000, 0⟩, {}, 0, 0⟩ ⟨2000, 3000⟩ = some s ∧
        s.scaled_ns_per_cycle_ = (2000 - 1000) * 2 ^ 64 / (3000 - 0) ∧
        cyclesToEpochNs s 3000 = 2000 ∧
        (cyclesToEpochNs s 0 = 1000 ∨ cyclesToEpochNs s 0 = 1000 + 1)) :=
  second_sample_interpolation ⟨6148914691236517205, 1000, ⟨1000, 0⟩, {}, 0, 0⟩ ⟨1000, 0⟩
    ⟨2000, 3000⟩ (by decide) (by decide) (by decide) (by decide) (by decide) (by decide)

/-- Claim C17 (interval consistency). In every state with a 64-bit multiplier and for
`t1 ≤ t2 < 2^64`, `cyclesToNs(t2) - cyclesToNs(t1) - cyclesToNs(t2 - t1)` is 0 or 1, and
the 64-bit difference `cyclesToEpochNs(t2) - cyclesToEpochNs(t1)` is
`cyclesToNs(t2 - t1)` or one more. -/
theorem interval_consistency (c : State) (t1 t2 : Nat) (h12 : t1 ≤ t2) (h2 : t2 < 2 ^ 64)
    (hr : c.scaled_ns_per_cycle_ < 2 ^ 64) :
    (cyclesToNs c t2 = cyclesToNs c t1 + cyclesToNs c (t2 - t1) ∨
      cyclesToNs c t2 = cyclesToNs c t1 + cyclesToNs c (t2 - t1) + 1) ∧
    (sub64 (cyclesToEpochNs c t2) (cyclesToEpochNs c t1) = cyclesToNs c (t2 - t1) ∨
      sub64 (cyclesToEpochNs c t2) (cyclesToEpochNs c t1) = cyclesToNs c (t2 - t1) + 1) := by
  have hsplit : cyclesToNs c t2 = cyclesToNs c t1 + cyclesToNs c (t2 - t1) ∨
      cyclesToNs c t2 = cyclesToNs c t1 + cyclesToNs c (t2 - t1) + 1 := by
    rw [cyclesToNs_eq c t2 h2 hr, cyclesToNs_eq c t1 (by omega) hr,
      cyclesToNs_eq c (t2 - t1) (by omega) hr]
    have e : t2 * c.scaled_ns_per_cycle_ =
        t1 * c.scaled_ns_per_cycle_ + (t2 - t1) * c.scaled_ns_per_cycle_ := by
      rw [← Nat.add_mul]
      congr 1
      omega
    rw [e]
    exact div_add_split _ _
  refine ⟨hsplit, ?_⟩
  have l1 := cyclesToNs_lt c t1
  have l2 := cyclesToNs_lt c t2
  have l3 := cyclesToNs_lt c (t2 - t1)
  unfold cyclesToEpochNs add64 sub64
  generalize cyclesToNs c t2 = f2 at *
  generalize cyclesToNs c t1 = f1 at *
  generalize cyclesToNs c (t2 - t1) = f3 at *
  omega

/-- Witness of C17: multiplier `floor(2^64 / 3)`, counter values 2 and 5. -/
theorem interval_consistency_witness :
    (cyclesToNs ⟨6148914691236517205, 7, ⟨0, 0⟩, {}, 0, 0⟩ 5 =
        cyclesToNs ⟨6148914691236517205, 7, ⟨0, 0⟩, {}, 0, 0⟩ 2 +
          cyclesToNs ⟨6148914691236517205, 7, ⟨0, 0⟩, {}, 0, 0⟩ (5 - 2) ∨
      cyclesToNs ⟨6148914691236517205, 7, ⟨0, 0⟩, {}, 0, 0⟩ 5 =
        cyclesToNs ⟨6148914691236517205, 7, ⟨0, 0⟩, {}, 0, 0⟩ 2 +
          cyclesToNs ⟨6148914691236517205, 7, ⟨0, 0⟩, {}, 0, 0⟩ (5 - 2) + 1) ∧
    (sub64 (cyclesToEpochNs ⟨6148914691236517205, 7, ⟨0, 0⟩, {}, 0, 0⟩ 5)
        (cyclesToEpochNs ⟨6148914691236517205, 7, ⟨0, 0⟩, {}, 0, 0⟩ 2) =
        cyclesToNs ⟨6148914691236517205, 7, ⟨0, 0⟩, {}, 0, 0⟩ (5 - 2) ∨
      sub64 (cyclesToEpochNs ⟨6148914691236517205, 7, ⟨0, 0⟩, {}, 0, 0⟩ 5)
        (cyclesToEpochNs ⟨6148914691236517205, 7, ⟨0, 0⟩, {}, 0, 0⟩ 2) =
        cyclesToNs ⟨6148914691236517205, 7, ⟨0, 0⟩, {}, 0, 0⟩ (5 - 2) + 1) :=
  interval_consistency ⟨6148914691236517205, 7, ⟨0, 0⟩, {}, 0, 0⟩ 2 5 (by decide) (by decide)
    (by decide)

end TscClock
